import Mathlib

/-!
# Verification of the IceBoard flash programmer (Flash-Programmer/IceBoard.cpp)

Shallow embedding of the SPI flash-programming protocol implemented in
`IceBoard.cpp`.  The transport (FT4222 driver) is an external collaborator;
it is modelled by an environment `Env` that decides, per issued SPI call,
whether the call fails at the transport level, what a status-register read
returns, how programmed bytes are stored, and what the driver reads from
memory past the end of an undersized buffer (the source passes a fixed byte
count to `WriteSPI` independent of the buffer's length).

Machine-integer behaviour of the source is modelled explicitly:
`size_t` wrap-around uses `% 2^64`, the C `int` divisions that can see
negative operands use `Int.tdiv` (truncation towards zero), and the 3-byte
address encoding masks with `&&& 0xFF` exactly as the source does.
-/

namespace IceBoard

/-- Modelled from the spec: the flash geometry constants
(`FLASH_PAGE_SIZE`, `FLASH_SECTOR_SIZE`, `MAX_READ_SIZE`, `MAX_WAIT_TIME_MS`,
`MAX_SECTOR_PROGRAM_ATTEMPTS`) live in `IceBoard.h`, which is not part of
`src/`; they are modelled as parameters.  The spec records the invariant that
the sector size is an integer multiple of the page size. -/
structure Geom where
  pageSize : Nat
  sectorSize : Nat
  maxReadSize : Nat
  maxWaitTimeMs : Nat
  maxSectorProgramAttempts : Nat

/-- Modelled from the spec: the opcode table (`ReadStatusRegisterCmd`, ...)
lives in `IceBoard.h`, which is not part of `src/`.  The concrete values are
the standard ones for the chip family; no claim depends on the values, only
on the frames being built from them. -/
def ReadStatusRegisterCmd : Nat := 0x05

/-- Modelled from the spec: see `ReadStatusRegisterCmd`. -/
def WriteEnableCmd : Nat := 0x06

/-- Modelled from the spec: see `ReadStatusRegisterCmd`. -/
def PageProgramCmd : Nat := 0x02

/-- Modelled from the spec: see `ReadStatusRegisterCmd`. -/
def SectorEraseCmd : Nat := 0x20

/-- Modelled from the spec: see `ReadStatusRegisterCmd`. -/
def ChipEraseCmd : Nat := 0xC7

/-- Modelled from the spec: see `ReadStatusRegisterCmd`. -/
def ReadCmd : Nat := 0x03

/-- Modelled from the spec: see `ReadStatusRegisterCmd`. -/
def WakeUpCmd : Nat := 0xAB

/-- Result statuses of the embedded functions.  `ok` is `FT4222_OK`;
`devError n` stands for any error status propagated from the FT4222 driver;
the remaining three are the statuses the source itself produces:
`FT4222_INORRECT_TRANSFER_SIZE`, `FT4222_TIME_OUT_ERROR`,
`FT4222_CORRUPTED_UPLOAD`.  The source has no input-validation status. -/
inductive FTStatus where
  | ok
  | devError (code : Nat)
  | incorrectTransferSize
  | timeOutError
  | corruptedUpload
  deriving DecidableEq, Repr

/-- A transport-level fault injected into one SPI call: either a driver
error status or a short transfer (fewer bytes moved than requested,
which `WriteSPI`/`ReadSPI` turn into `FT4222_INORRECT_TRANSFER_SIZE`). -/
inductive TErr where
  | dev (code : Nat)
  | short
  deriving DecidableEq, Repr

/-- Status returned by `WriteSPI`/`ReadSPI` for a given injected fault. -/
def errOf : Option TErr → FTStatus
  | none => .ok
  | some (.dev n) => .devError n
  | some .short => .incorrectTransferSize

/-- One SPI call as issued by the source: `wr payload count endTx` records a
`WriteSPI(payload, count, endTx)` call (note the count is passed separately
from the buffer, exactly as in the source) and `rd count endTx` records a
`ReadSPI(_, count, endTx)` call. -/
inductive Ev where
  | wr (payload : List Nat) (count : Nat) (endTx : Bool)
  | rd (count : Nat) (endTx : Bool)
  deriving DecidableEq, Repr

/-- The environment: the idealized transport and flash-device model.
`fault k` injects a transport failure into the `k`-th SPI call of the
session; `store k a b` is the byte actually retained by the flash cell at
address `a` when the payload transfer that is the `k`-th SPI call transmits
`b` there (an ideal flash has `store k a b = b`); `statusByte k` is the byte
delivered when the `k`-th SPI call is a status-register read; `junk k off`
is the byte the driver fetches from host memory at offset `off` of an
undersized write buffer (the source's `WriteSPI(writeBuffer, FLASH_PAGE_SIZE,
true)` reads past the buffer when the buffer is shorter than a page). -/
structure Env where
  fault : Nat → Option TErr
  store : Nat → Nat → Nat → Nat
  statusByte : Nat → Nat
  junk : Nat → Nat → Nat

/-- Session state threaded through the embedding: the flash array contents,
the number of SPI calls issued so far, and the list of issued calls. -/
structure St where
  flash : Nat → Nat
  k : Nat
  trace : List Ev

/-- Type of the embedded stateful operations. -/
abbrev M := St → FTStatus × St

/-- Embedding of `IntToByteVec`: the 24-bit big-endian address encoding
`{(x & 0x00FF0000) >> 16, (x & 0x0000FF00) >> 8, x & 0x000000FF}`. -/
def IntToByteVec (x : Nat) : List Nat :=
  [(x >>> 16) &&& 0xFF, (x >>> 8) &&& 0xFF, x &&& 0xFF]

/-- The byte address actually carried by a 3-byte frame built from `x`:
the low 24 bits.  The idealized device acts at this address. -/
def addr24 (x : Nat) : Nat := x % 2 ^ 24

/-- Embedding of a `WriteSPI` call at the protocol level: one SPI call is
issued; its status is decided by the injected fault for the current call
index.  The event records the buffer and the separately-passed byte count. -/
def writeSPIm (env : Env) (payload : List Nat) (count : Nat) (endTx : Bool) : M :=
  fun s =>
    (errOf (env.fault s.k),
      { s with k := s.k + 1, trace := s.trace ++ [.wr payload count endTx] })

/-- Embedding of the `ReadSPI` call of `WaitForFlashReady`: reads one byte
(the status register); the byte delivered is `env.statusByte` at the current
call index. -/
def readStatusM (env : Env) : St → FTStatus × Nat × St :=
  fun s =>
    (errOf (env.fault s.k), env.statusByte s.k,
      { s with k := s.k + 1, trace := s.trace ++ [.rd 1 true] })

/-- Embedding of a `ReadSPI` call that follows a `Read` command frame at
byte address `base`: the idealized device streams `count` bytes of the flash
array starting at `base`. -/
def readFlashM (env : Env) (base count : Nat) (endTx : Bool) :
    St → FTStatus × List Nat × St :=
  fun s =>
    (errOf (env.fault s.k), (List.range count).map fun j => s.flash (base + j),
      { s with k := s.k + 1, trace := s.trace ++ [.rd count endTx] })

/-- The byte the driver transmits at offset `off` of a payload transfer that
passes buffer `wb` with a count possibly exceeding `wb.length`: a buffer
byte while in range, and a host-memory byte (`env.junk`) past the end. -/
def transmittedByte (env : Env) (k : Nat) (wb : List Nat) (off : Nat) : Nat :=
  if off < wb.length then wb.getD off 0 else env.junk k off

/-- Idealized device effect of a successful `PageProgram` payload transfer
that was the `k`-th SPI call: the `pageSize` transmitted bytes are stored
(through `env.store`) at addresses `base, base+1, ...`. -/
def applyProgram (g : Geom) (env : Env) (k base : Nat) (wb : List Nat) (s : St) : St :=
  { s with
    flash := fun a =>
      if base ≤ a ∧ a < base + g.pageSize then
        env.store k a (transmittedByte env k wb (a - base))
      else s.flash a }

/-- Idealized device effect of a successful `SectorErase` frame: the sector
at `base` is reset to the erased value `0xFF`. -/
def applyErase (g : Geom) (base : Nat) (s : St) : St :=
  { s with
    flash := fun a =>
      if base ≤ a ∧ a < base + g.sectorSize then 0xFF else s.flash a }

/-- Embedding of the polling loop of `WaitForFlashReady`, by remaining
iterations (the source runs `MAX_WAIT_TIME_MS` iterations with a 1 ms sleep,
which has no model effect). -/
def waitLoop (env : Env) : Nat → M
  | 0 => fun s => (.timeOutError, s)
  | n + 1 => fun s =>
    match writeSPIm env [ReadStatusRegisterCmd] 1 false s with
    | (.ok, s1) =>
      match readStatusM env s1 with
      | (.ok, b, s2) =>
        if b &&& 0x01 = 0x00 then (.ok, s2) else waitLoop env n s2
      | (st, _, s2) => (st, s2)
    | (st, s1) => (st, s1)

/-- Embedding of `WaitForFlashReady`. -/
def WaitForFlashReadyM (g : Geom) (env : Env) : M :=
  waitLoop env g.maxWaitTimeMs

/-- Embedding of `WriteEnableFlash`. -/
def WriteEnableFlashM (env : Env) : M :=
  writeSPIm env [WriteEnableCmd] 1 true

/-- Embedding of `WakeUpFlash`. -/
def WakeUpFlashM (env : Env) : M :=
  writeSPIm env [WakeUpCmd] 1 true

/-- Embedding of `EraseSector`: write-enable, then the
`SectorEraseCmd :: address` frame (erasing the sector on success), then
busy-wait. -/
def EraseSectorM (g : Geom) (env : Env) (sectorIndex : Nat) : M :=
  fun s =>
    match WriteEnableFlashM env s with
    | (.ok, s1) =>
      let wb := SectorEraseCmd :: IntToByteVec (sectorIndex * g.sectorSize)
      match writeSPIm env wb wb.length true s1 with
      | (.ok, s2) =>
        WaitForFlashReadyM g env
          (applyErase g (addr24 (sectorIndex * g.sectorSize)) s2)
      | (st, s2) => (st, s2)
    | (st, s1) => (st, s1)

/-- Embedding of `PageProgramFlash`.  Note the payload transfer passes the
chunk buffer but the fixed count `g.pageSize`, exactly as the source's
`WriteSPI(writeBuffer, FLASH_PAGE_SIZE, true)` does: when the buffer is
shorter than a page the driver reads past it (`env.junk`). -/
def PageProgramFlashM (g : Geom) (env : Env) (pageIndex : Nat)
    (writeBuffer : List Nat) : M :=
  fun s =>
    let startAddress := pageIndex * g.pageSize
    let cmdAddr := PageProgramCmd :: IntToByteVec startAddress
    match WriteEnableFlashM env s with
    | (.ok, s1) =>
      match writeSPIm env cmdAddr cmdAddr.length false s1 with
      | (.ok, s2) =>
        match writeSPIm env writeBuffer g.pageSize true s2 with
        | (.ok, s3) =>
          WaitForFlashReadyM g env
            (applyProgram g env s2.k (addr24 startAddress) writeBuffer s3)
        | (st, s3) => (st, s3)
      | (st, s2) => (st, s2)
    | (st, s1) => (st, s1)

/-- Embedding of the `pageCount` computation of `SectorProgramFlash`.  The
source computes in C `int` arithmetic:
`(int)size < FLASH_SECTOR_SIZE ? 1 + (((int)size - 1) / FLASH_PAGE_SIZE)
: FLASH_SECTOR_SIZE / FLASH_PAGE_SIZE`; C `/` truncates towards zero, which
is `Int.tdiv` (for an empty buffer the dividend is `-1`, giving `0`). -/
def pageCountModel (g : Geom) (len : Nat) : Nat :=
  (if (len : Int) < (g.sectorSize : Int) then
      1 + Int.tdiv ((len : Int) - 1) (g.pageSize : Int)
    else Int.tdiv (g.sectorSize : Int) (g.pageSize : Int)).toNat

/-- The `i`-th page chunk extracted by `SectorProgramFlash`: the slice from
`i * pageSize` to the next page boundary, except that the last chunk runs to
the end of the buffer. -/
def pageChunk (g : Geom) (sectorBuffer : List Nat) (pageCount i : Nat) : List Nat :=
  if i = pageCount - 1 then sectorBuffer.drop (i * g.pageSize)
  else (sectorBuffer.drop (i * g.pageSize)).take g.pageSize

/-- Embedding of the page loop of `SectorProgramFlash`, by remaining pages:
with `rem` pages left out of `pageCount`, the current page is
`i = pageCount - rem`. -/
def pagesLoop (g : Geom) (env : Env) (pageStartIndex : Nat)
    (sectorBuffer : List Nat) (pageCount : Nat) : Nat → M
  | 0 => fun s => (.ok, s)
  | rem + 1 => fun s =>
    let i := pageCount - (rem + 1)
    match PageProgramFlashM g env (pageStartIndex + i)
        (pageChunk g sectorBuffer pageCount i) s with
    | (.ok, s1) => pagesLoop g env pageStartIndex sectorBuffer pageCount rem s1
    | (st, s1) => (st, s1)

/-- Embedding of `SectorProgramFlash`. -/
def SectorProgramFlashM (g : Geom) (env : Env) (sectorIndex : Nat)
    (sectorBuffer : List Nat) : M :=
  fun s =>
    let pageCount := pageCountModel g sectorBuffer.length
    let pageStartIndex := sectorIndex * (g.sectorSize / g.pageSize)
    pagesLoop g env pageStartIndex sectorBuffer pageCount pageCount s

/-- Embedding of `ReadSectorFlash`: `ReadCmd :: address` frame without
ending the transaction, then a full-sector `ReadSPI` ending it. -/
def ReadSectorFlashM (g : Geom) (env : Env) (sectorIndex : Nat) :
    St → FTStatus × List Nat × St :=
  fun s =>
    let cmd := ReadCmd :: IntToByteVec (sectorIndex * g.sectorSize)
    match writeSPIm env cmd cmd.length false s with
    | (.ok, s1) =>
      readFlashM env (addr24 (sectorIndex * g.sectorSize)) g.sectorSize true s1
    | (st, s1) => (st, [], s1)

/-- The number of positions `j < n` where two buffers disagree; embedding of
the `errorCount` loop of `ProgramFlash` (`readBuffer[j] != sectorBuffer[j]`). -/
def countMismatch (a b : List Nat) (n : Nat) : Nat :=
  (List.range n).countP fun j => a.getD j 0 != b.getD j 0

/-- Embedding of the `sectorCount` computation of `ProgramFlash`:
`1 + ((fileBuffer.size() - 1) / FLASH_SECTOR_SIZE)` in `size_t` arithmetic,
so an empty buffer wraps around to `2^64 - 1` before the division. -/
def sectorCountModel (sectorSize len : Nat) : Nat :=
  1 + ((len + (2 ^ 64 - 1)) % 2 ^ 64) / sectorSize

/-- The sector window extracted by `ProgramFlash` for sector `i` (the source
slices from `bufferPointer`, which equals `i * sectorSize` when sector `i`
is processed): a full sector except that the last window runs to the end of
the file buffer. -/
def sectorWindow (g : Geom) (fileBuffer : List Nat)
    (sectorCount bufferPointer i : Nat) : List Nat :=
  if i = sectorCount - 1 then fileBuffer.drop bufferPointer
  else (fileBuffer.drop bufferPointer).take g.sectorSize

/-- Embedding of the `bytesToTransmit` computation of `ProgramFlash`: the
number of read-back bytes compared against the window. -/
def bytesToTransmitModel (g : Geom) (fileBuffer : List Nat)
    (sectorCount i : Nat) : Nat :=
  if i = sectorCount - 1 then fileBuffer.length - i * g.sectorSize
  else g.sectorSize

/-- Embedding of the retry (`while (!success)`) loop of `ProgramFlash` for
one sector, by remaining attempts (`rem = MAX_SECTOR_PROGRAM_ATTEMPTS -
attempts`): program the sector, read it back, count mismatches over
`bytesToTransmit` bytes, erase on mismatch; then the source increments
`attempts` and returns `FT4222_CORRUPTED_UPLOAD` as soon as `attempts`
reaches the bound — before testing `success`, so even a run whose final
allowed attempt verified cleanly returns `FT4222_CORRUPTED_UPLOAD`. -/
def sectorAttempts (g : Geom) (env : Env) (i : Nat) (sectorBuffer : List Nat)
    (bytesToTransmit : Nat) : Nat → M
  | 0 => fun s => (.corruptedUpload, s)
  | rem + 1 => fun s =>
    match SectorProgramFlashM g env i sectorBuffer s with
    | (.ok, s1) =>
      match ReadSectorFlashM g env i s1 with
      | (.ok, rb, s2) =>
        if countMismatch rb sectorBuffer bytesToTransmit > 0 then
          match EraseSectorM g env i s2 with
          | (.ok, s3) =>
            if rem = 0 then (.corruptedUpload, s3)
            else sectorAttempts g env i sectorBuffer bytesToTransmit rem s3
          | (st, s3) => (st, s3)
        else if rem = 0 then (.corruptedUpload, s2) else (.ok, s2)
      | (st, _, s2) => (st, s2)
    | (st, s1) => (st, s1)

/-- Embedding of the sector loop of `ProgramFlash`, by remaining sectors:
with `rem` sectors left out of `sectorCount`, the current sector is
`i = sectorCount - rem` and `bufferPointer` has been advanced `i` times. -/
def sectorsLoop (g : Geom) (env : Env) (fileBuffer : List Nat)
    (sectorCount : Nat) : Nat → Nat → M
  | 0, _ => fun s => (.ok, s)
  | rem + 1, bufferPointer => fun s =>
    let i := sectorCount - (rem + 1)
    match sectorAttempts g env i
        (sectorWindow g fileBuffer sectorCount bufferPointer i)
        (bytesToTransmitModel g fileBuffer sectorCount i)
        g.maxSectorProgramAttempts s with
    | (.ok, s1) =>
      sectorsLoop g env fileBuffer sectorCount rem
        (bufferPointer + g.sectorSize) s1
    | (st, s1) => (st, s1)

/-- Embedding of `ProgramFlash`. -/
def ProgramFlashM (g : Geom) (env : Env) (fileBuffer : List Nat) : M :=
  fun s =>
    let sectorCount := sectorCountModel g.sectorSize fileBuffer.length
    sectorsLoop g env fileBuffer sectorCount sectorCount 0 s

/-- Embedding of the chunk count of `ValidateFlash`:
`1 + (((int)fileBuffer.size() - 1) / MAX_READ_SIZE)` in C `int` arithmetic
(truncating division). -/
def chunkCountModel (g : Geom) (len : Nat) : Nat :=
  (1 + Int.tdiv ((len : Int) - 1) (g.maxReadSize : Int)).toNat

/-- Embedding of the `bytesToRead` computation of `ValidateFlash` for chunk
`i` of `n`. -/
def bytesToReadModel (g : Geom) (len n i : Nat) : Nat :=
  if i = n - 1 then len - i * g.maxReadSize else g.maxReadSize

/-- Embedding of the read loop of `ValidateFlash`, by remaining chunks.
The source scatters each chunk into `readBuffer` at `pointer + j`; since the
chunks are consecutive this is the concatenation accumulated in `acc`. -/
def validateChunks (g : Geom) (env : Env) (len n : Nat) :
    Nat → Nat → List Nat → St → FTStatus × List Nat × St
  | 0, _, acc => fun s => (.ok, acc, s)
  | rem + 1, pointer, acc => fun s =>
    let i := n - (rem + 1)
    let cmd := ReadCmd :: IntToByteVec pointer
    let bytesToRead := bytesToReadModel g len n i
    match writeSPIm env cmd cmd.length false s with
    | (.ok, s1) =>
      match readFlashM env (addr24 pointer) bytesToRead true s1 with
      | (.ok, bs, s2) =>
        validateChunks g env len n rem (pointer + g.maxReadSize) (acc ++ bs) s2
      | (st, _, s2) => (st, acc, s2)
    | (st, s1) => (st, acc, s1)

/-- Embedding of `ValidateFlash`: read the whole image length in chunks of
at most `MAX_READ_SIZE`, then compare byte for byte against the file buffer,
returning `FT4222_CORRUPTED_UPLOAD` on the first mismatch. -/
def ValidateFlashM (g : Geom) (env : Env) (fileBuffer : List Nat) : M :=
  fun s =>
    let n := chunkCountModel g fileBuffer.length
    match validateChunks g env fileBuffer.length n n 0 [] s with
    | (.ok, rb, s1) =>
      if countMismatch rb fileBuffer fileBuffer.length > 0 then
        (.corruptedUpload, s1)
      else (.ok, s1)
    | (st, _, s1) => (st, s1)

/-- Driver-level embedding of `WriteSPI`: the source passes
`(uint16)bytesToWrite` to the driver, receives the transferred count in a
`uint16`, and then compares that `uint16` against the untruncated `size_t`
`bytesToWrite`.  `driverStatus` is the status the underlying
`FT4222_SPIMaster_SingleWrite` reports and `driverTransferred r` the number
of bytes it transfers when asked for `r`. -/
def WriteSPIdrv (driverStatus : FTStatus) (bytesToWrite : Nat)
    (driverTransferred : Nat → Nat) : FTStatus :=
  if driverStatus ≠ .ok then driverStatus
  else if driverTransferred (bytesToWrite % 2 ^ 16) % 2 ^ 16 ≠ bytesToWrite then
    .incorrectTransferSize
  else .ok

/-- Driver-level embedding of `ReadSPI`: identical truncate-then-compare
structure to `WriteSPI`. -/
def ReadSPIdrv (driverStatus : FTStatus) (bytesToRead : Nat)
    (driverTransferred : Nat → Nat) : FTStatus :=
  if driverStatus ≠ .ok then driverStatus
  else if driverTransferred (bytesToRead % 2 ^ 16) % 2 ^ 16 ≠ bytesToRead then
    .incorrectTransferSize
  else .ok

/-- The idealized transport and flash of the claims: no call faults, bytes
are stored exactly as transmitted, and the status register always reports
ready. -/
def Ideal (env : Env) : Prop :=
  (∀ k, env.fault k = none) ∧
  (∀ k a b, env.store k a b = b) ∧
  (∀ k, env.statusByte k &&& 0x01 = 0x00)

/-- The SPI calls of one busy-wait poll: the `ReadStatus` frame keeping the
transaction open, then the 1-byte status read ending it. -/
def pollEvs : List Ev :=
  [.wr [ReadStatusRegisterCmd] 1 false, .rd 1 true]

/-- The SPI calls of `c` consecutive polls. -/
def pollEvsN : Nat → List Ev
  | 0 => []
  | c + 1 => pollEvs ++ pollEvsN c

/-- The SPI calls of one page-program operation on an ideal transport:
write-enable, the `PageProgram` frame at `addr` keeping the transaction
open, the payload transfer (with its fixed page-size count) ending it, and
one ready poll. -/
def pageOpEvs (g : Geom) (addr : Nat) (chunk : List Nat) : List Ev :=
  [.wr [WriteEnableCmd] 1 true,
   .wr (PageProgramCmd :: IntToByteVec addr) 4 false,
   .wr chunk g.pageSize true] ++ pollEvs

/-- The SPI calls of one `ValidateFlash` read chunk: the `Read` frame at
`addr` keeping the transaction open, then the chunk read ending it. -/
def chunkEvs (addr count : Nat) : List Ev :=
  [.wr (ReadCmd :: IntToByteVec addr) 4 false, .rd count true]

/-- The SPI calls of the `ValidateFlash` read loop from chunk index `i` with
`rem` chunks remaining (out of `n` chunks over an image of length `len`). -/
def chunkEvsFrom (g : Geom) (len n : Nat) : Nat → Nat → List Ev
  | _, 0 => []
  | i, rem + 1 =>
    chunkEvs (i * g.maxReadSize) (bytesToReadModel g len n i) ++
      chunkEvsFrom g len n (i + 1) rem

/-- The SPI calls of the `SectorProgramFlash` page loop with `rem` pages
remaining (out of `pageCount` pages starting at `pageStartIndex`). -/
def pageEvsFrom (g : Geom) (sb : List Nat) (pageStartIndex pageCount : Nat) :
    Nat → List Ev
  | 0 => []
  | rem + 1 =>
    pageOpEvs g ((pageStartIndex + (pageCount - (rem + 1))) * g.pageSize)
      (pageChunk g sb pageCount (pageCount - (rem + 1))) ++
      pageEvsFrom g sb pageStartIndex pageCount rem

/-! ## Concrete instances used by closed theorems and witnesses -/

/-- An ideal environment instance: no faults, faithful storage, always
ready, and a recognizable junk byte `0xEE` for buffer overreads. -/
def envI : Env :=
  { fault := fun _ => none, store := fun _ _ b => b,
    statusByte := fun _ => 0, junk := fun _ _ => 0xEE }

/-- Initial session state for concrete runs: an all-zero flash array. -/
def st0 : St := { flash := fun _ => 0, k := 0, trace := [] }

/-- Small geometry with one page per sector (used by concrete runs). -/
def gC2 : Geom :=
  { pageSize := 4, sectorSize := 4, maxReadSize := 8, maxWaitTimeMs := 2,
    maxSectorProgramAttempts := 2 }

/-- Small geometry with two pages per sector (used by concrete runs). -/
def g48 : Geom :=
  { pageSize := 4, sectorSize := 8, maxReadSize := 8, maxWaitTimeMs := 2,
    maxSectorProgramAttempts := 2 }

/-- Environment whose flash persistently corrupts every byte stored in
sector 0 (addresses below 4 for `gC2`): every read-back of that sector
mismatches, on every attempt. -/
def envPersistCorrupt : Env :=
  { envI with store := fun _ a b => if a < 4 then (b + 1) % 256 else b }

/-- Environment whose flash corrupts only the first page-program payload
transfer of a session (SPI calls up to index 2) and stores faithfully
afterwards: the first program attempt fails verification, the second
attempt verifies cleanly. -/
def envFirstAttemptCorrupt : Env :=
  { envI with store := fun k _ b => if k ≤ 2 then (b + 1) % 256 else b }

/-- Geometry with four pages per sector (`sectorSize = 4 * pageSize`),
used by the C5 and C1 witnesses. -/
def gFour : Geom :=
  { pageSize := 2, sectorSize := 8, maxReadSize := 8, maxWaitTimeMs := 2,
    maxSectorProgramAttempts := 2 }

/-- A 9-byte image: one full `gFour` sector plus one byte. -/
def imgNine : List Nat := [10, 11, 12, 13, 14, 15, 16, 17, 18]

/-- Environment whose status register reports busy for the first three
polls (SPI call indices below 6) and ready afterwards. -/
def envBusyThenReady : Env :=
  { envI with statusByte := fun k => if k < 6 then 1 else 0 }

/-- Geometry with a poll budget of 5 (used by the C7 witness). -/
def gPoll : Geom :=
  { pageSize := 4, sectorSize := 4, maxReadSize := 8, maxWaitTimeMs := 5,
    maxSectorProgramAttempts := 2 }

/-- Geometry with read-chunk cap 4 (used by the C8 witness). -/
def gV : Geom :=
  { pageSize := 2, sectorSize := 8, maxReadSize := 4, maxWaitTimeMs := 2,
    maxSectorProgramAttempts := 2 }

/-- An 11-byte image (`2 * maxReadChunk + 3` for `gV`). -/
def imgV : List Nat :=
  [100, 101, 102, 103, 104, 105, 106, 107, 108, 109, 110]

/-- A session state whose flash already holds `imgV` at addresses
`[0, 11)`. -/
def stV : St :=
  { flash := fun a => if a < 11 then a + 100 else 0, k := 0, trace := [] }

/-- The abort contract of a run against the first injected transport fault:
starting from call index `k1` with the first fault at call `k0`, the run
either finishes having issued only calls below `k0` (final call index `k2`
between `k1` and `k0`, so the faulting call was never issued), or it issues
the faulting call as its very last SPI call (`k2 = k0 + 1`) and returns that
call's error status unchanged.  Since every SPI call of the embedding bumps
the call counter by exactly one, `k2 = k0 + 1` says no SPI transaction is
issued after the failed one and the failed transaction is never retried. -/
def AbortOutcome (k0 : Nat) (e : TErr) (k1 k2 : Nat) (st : FTStatus) : Prop :=
  (k1 ≤ k2 ∧ k2 ≤ k0) ∨ (st = errOf (some e) ∧ k2 = k0 + 1)

/-- A stateful operation propagates the first transport fault immediately:
for every call index `k0` carrying the first fault at or after the current
session position, the run satisfies `AbortOutcome`. -/
def AbortsAtFault (env : Env) (run : M) : Prop :=
  ∀ k0 e s, env.fault k0 = some e →
    (∀ j, s.k ≤ j → j < k0 → env.fault j = none) → s.k ≤ k0 →
    AbortOutcome k0 e s.k (run s).2.k (run s).1

/-- A fault-free transport whose status register always reports busy
(bit 0 set): every busy-wait exhausts its poll budget and times out. -/
def AlwaysBusy (env : Env) : Prop :=
  (∀ k, env.fault k = none) ∧ (∀ k, env.statusByte k &&& 0x01 = 0x01)

/-- Environment whose transport faults at the very first SPI call of the
session with driver error code 7 and never afterwards. -/
def envFault0 : Env :=
  { envI with fault := fun k => if k = 0 then some (.dev 7) else none }

/-- An operation returns the first timeout it encounters immediately:
whenever its result is `FT4222_TIME_OUT_ERROR`, its entire bus activity is
some prefix followed by exactly the exhausted poll budget of the failed
busy-wait (`maxWaitTimeMs` polls), and the call counter stops right at the
end of that budget — no SPI transaction is issued after the failed wait and
the failed wait is never retried.  This holds for every environment, so it
covers a timeout wherever it occurs: at the first page, a later page, a
later sector, or the erase wait of a verification retry. -/
def TimeoutAborts (g : Geom) (env : Env) (run : M) : Prop :=
  ∀ s, (run s).1 = .timeOutError →
    ∃ pre, (run s).2.trace = s.trace ++ pre ++ pollEvsN g.maxWaitTimeMs ∧
      (run s).2.k = s.k + pre.length + 2 * g.maxWaitTimeMs

/-- Environment whose status register always reports busy. -/
def envBusy : Env := { envI with statusByte := fun _ => 1 }

/-- Environment that is ready for the first four SPI calls of the session
and busy afterwards: with geometry `g48` the first page's busy-wait
succeeds and the second page's busy-wait times out. -/
def envLateBusy : Env :=
  { envI with statusByte := fun k => if k < 5 then 0 else 1 }

/-! ## Theorems -/

/-- One busy-wait poll on a fault-free transport that reports ready at the
first status read: success after exactly one poll (two SPI calls). -/
theorem waitLoop_ready_first (env : Env) (hf : ∀ k, env.fault k = none)
    (n : Nat) (hn : 1 ≤ n) {s : St}
    (hready : env.statusByte (s.k + 1) &&& 0x01 = 0x00) :
    waitLoop env n s = (.ok, ⟨s.flash, s.k + 2, s.trace ++ pollEvs⟩) := by
  obtain ⟨m, rfl⟩ : ∃ m, n = m + 1 := ⟨n - 1, by omega⟩
  simp [waitLoop, writeSPIm, readStatusM, hf, hready, errOf, pollEvs]

/-- Polling semantics of `waitLoop` on a fault-free transport: if every
status byte in the budget has the busy bit set the loop times out after
exactly `n` polls; otherwise it succeeds at the first ready poll. -/
theorem waitLoop_spec (env : Env) (hf : ∀ k, env.fault k = none) :
    ∀ n s,
      ((∀ i, i < n → ¬ env.statusByte (s.k + 2 * i + 1) &&& 0x01 = 0x00) →
        waitLoop env n s =
          (.timeOutError, ⟨s.flash, s.k + 2 * n, s.trace ++ pollEvsN n⟩)) ∧
      (∀ i₀, i₀ < n → env.statusByte (s.k + 2 * i₀ + 1) &&& 0x01 = 0x00 →
        (∀ j, j < i₀ → ¬ env.statusByte (s.k + 2 * j + 1) &&& 0x01 = 0x00) →
        waitLoop env n s =
          (.ok, ⟨s.flash, s.k + 2 * (i₀ + 1), s.trace ++ pollEvsN (i₀ + 1)⟩)) := by
  intro n
  induction n with
  | zero =>
    intro s
    refine ⟨fun _ => ?_, fun i₀ h => absurd h (by omega)⟩
    simp [waitLoop, pollEvsN]
  | succ m ih =>
    intro s
    have stepBusy : env.statusByte (s.k + 1) % 2 = 1 →
        waitLoop env (m + 1) s =
          waitLoop env m ⟨s.flash, s.k + 2, s.trace ++ pollEvs⟩ := by
      intro h0
      simp [waitLoop, writeSPIm, readStatusM, hf, errOf, pollEvs, h0]
    constructor
    · intro hbusy
      have h0 : env.statusByte (s.k + 1) % 2 = 1 := by
        have hb := hbusy 0 (by omega)
        simp only [Nat.mul_zero, Nat.add_zero, Nat.and_one_is_mod] at hb
        omega
      have hside : ∀ i, i < m →
          ¬ env.statusByte
            ((⟨s.flash, s.k + 2, s.trace ++ pollEvs⟩ : St).k + 2 * i + 1)
              &&& 0x01 = 0x00 := by
        intro i hi
        show ¬ env.statusByte (s.k + 2 + 2 * i + 1) &&& 0x01 = 0x00
        have harg : s.k + 2 + 2 * i + 1 = s.k + 2 * (i + 1) + 1 := by omega
        rw [harg]
        exact hbusy (i + 1) (by omega)
      rw [stepBusy h0, (ih _).1 hside]
      simp only [Prod.mk.injEq, St.mk.injEq, true_and]
      refine ⟨by omega, ?_⟩
      simp [pollEvsN, List.append_assoc]
    · intro i₀ hi₀ hready hmin
      cases i₀ with
      | zero =>
        have h0 : env.statusByte (s.k + 1) &&& 0x01 = 0x00 := by
          simpa using hready
        rw [waitLoop_ready_first env hf (m + 1) (by omega) h0]
        simp [pollEvsN, pollEvs]
      | succ i =>
        have h0 : env.statusByte (s.k + 1) % 2 = 1 := by
          have hb := hmin 0 (by omega)
          simp only [Nat.mul_zero, Nat.add_zero, Nat.and_one_is_mod] at hb
          omega
        have hready' : env.statusByte
            ((⟨s.flash, s.k + 2, s.trace ++ pollEvs⟩ : St).k + 2 * i + 1)
              &&& 0x01 = 0x00 := by
          show env.statusByte (s.k + 2 + 2 * i + 1) &&& 0x01 = 0x00
          have harg : s.k + 2 + 2 * i + 1 = s.k + 2 * (i + 1) + 1 := by omega
          rw [harg]
          exact hready
        have hmin' : ∀ j, j < i →
            ¬ env.statusByte
              ((⟨s.flash, s.k + 2, s.trace ++ pollEvs⟩ : St).k + 2 * j + 1)
                &&& 0x01 = 0x00 := by
          intro j hj
          show ¬ env.statusByte (s.k + 2 + 2 * j + 1) &&& 0x01 = 0x00
          have harg : s.k + 2 + 2 * j + 1 = s.k + 2 * (j + 1) + 1 := by omega
          rw [harg]
          exact hmin (j + 1) (by omega)
        rw [stepBusy h0, (ih _).2 i (by omega) hready' hmin']
        simp only [Prod.mk.injEq, St.mk.injEq, true_and]
        refine ⟨by omega, ?_⟩
        simp [pollEvsN, List.append_assoc]

/-- C7: on a fault-free transport, `WaitForFlashReady` succeeds exactly
when some poll within the `MAX_WAIT_TIME_MS` budget observes a status byte
with bit 0 clear, and it returns at the first such poll, having issued one
`ReadStatus` frame (chip-select held) and one 1-byte receive (chip-select
released) per poll; if every poll in the budget observes busy it returns
`FT4222_TIME_OUT_ERROR` after exactly `MAX_WAIT_TIME_MS` polls (the 1 ms
sleep between polls has no model content).  The status byte seen by poll
`i` is the one delivered by SPI call `s.k + 2*i + 1`. -/
theorem waitForFlashReady_poll_semantics (g : Geom) (env : Env) (s : St)
    (hf : ∀ k, env.fault k = none) :
    ((WaitForFlashReadyM g env s).1 = .ok ↔
      ∃ i, i < g.maxWaitTimeMs ∧ env.statusByte (s.k + 2 * i + 1) &&& 0x01 = 0x00) ∧
    (∀ i₀, i₀ < g.maxWaitTimeMs →
      env.statusByte (s.k + 2 * i₀ + 1) &&& 0x01 = 0x00 →
      (∀ j, j < i₀ → ¬ env.statusByte (s.k + 2 * j + 1) &&& 0x01 = 0x00) →
      WaitForFlashReadyM g env s =
        (.ok, ⟨s.flash, s.k + 2 * (i₀ + 1), s.trace ++ pollEvsN (i₀ + 1)⟩)) ∧
    ((∀ i, i < g.maxWaitTimeMs → ¬ env.statusByte (s.k + 2 * i + 1) &&& 0x01 = 0x00) →
      WaitForFlashReadyM g env s =
        (.timeOutError,
          ⟨s.flash, s.k + 2 * g.maxWaitTimeMs, s.trace ++ pollEvsN g.maxWaitTimeMs⟩)) := by
  have spec := waitLoop_spec env hf g.maxWaitTimeMs s
  refine ⟨?_, fun i₀ h1 h2 h3 => spec.2 i₀ h1 h2 h3, spec.1⟩
  constructor
  · intro hok
    by_contra hnone
    push_neg at hnone
    have := spec.1 fun i hi => hnone i hi
    rw [WaitForFlashReadyM] at hok
    rw [this] at hok
    simp at hok
  · rintro ⟨i, hi, hready⟩
    have hex : ∃ j, env.statusByte (s.k + 2 * j + 1) &&& 0x01 = 0x00 := ⟨i, hready⟩
    have hfind := Nat.find_spec hex
    have hmin : ∀ j, j < Nat.find hex →
        ¬ env.statusByte (s.k + 2 * j + 1) &&& 0x01 = 0x00 :=
      fun j hj => Nat.find_min hex hj
    have hlt : Nat.find hex < g.maxWaitTimeMs :=
      lt_of_le_of_lt (Nat.find_min' hex hready) hi
    have := spec.2 (Nat.find hex) hlt hfind hmin
    rw [WaitForFlashReadyM, this]

/-- Splicing the sector windows back together: for any window count `sc`
whose size bounds bracket the buffer length, the concatenation of the
windows (full slices of `S` bytes, the last running to the end) is the
buffer itself. -/
theorem windowsJoin (S : Nat) (hS : 0 < S) :
    ∀ (sc : Nat) (fb : List Nat), 1 ≤ fb.length → fb.length ≤ sc * S →
      (sc - 1) * S < fb.length →
      (List.range sc).flatMap
        (fun i => if i = sc - 1 then fb.drop (i * S) else (fb.drop (i * S)).take S)
        = fb := by
  intro sc
  induction sc with
  | zero =>
    intro fb h1 h2 _
    exfalso
    simp only [Nat.zero_mul, Nat.le_zero] at h2
    omega
  | succ m ih =>
    intro fb h1 h2 h3
    cases m with
    | zero => simp [show List.range 1 = [0] from rfl]
    | succ m' =>
      rw [List.range_succ_eq_map, List.flatMap_cons, List.flatMap_map]
      rw [if_neg (by omega)]
      simp only [Nat.zero_mul, List.drop_zero]
      have hSmul : S ≤ (m' + 1) * S := Nat.le_mul_of_pos_left S (by omega)
      have hd1 : (m' + 1 + 1 - 1) * S = (m' + 1) * S := by norm_num
      have hd2 : (m' + 1 + 1) * S = (m' + 1) * S + S := by ring
      have hd4 : (m' + 1) * S = m' * S + S := by ring
      have hfun : ∀ a ∈ List.range (m' + 1),
          (if Nat.succ a = m' + 1 + 1 - 1
            then fb.drop (Nat.succ a * S)
            else (fb.drop (Nat.succ a * S)).take S)
          = (if a = m' + 1 - 1
            then (fb.drop S).drop (a * S)
            else ((fb.drop S).drop (a * S)).take S) := by
        intro a _
        have hdd : (fb.drop S).drop (a * S) = fb.drop (Nat.succ a * S) := by
          rw [List.drop_drop]
          congr 1
          simp only [Nat.succ_eq_add_one]
          ring
        by_cases hcase : a = m'
        · subst hcase
          rw [if_pos (by omega), if_pos (by omega), hdd]
        · rw [if_neg (by omega), if_neg (by omega), hdd]
      rw [List.flatMap_congr hfun]
      rw [ih (fb.drop S) (by rw [List.length_drop]; omega)
        (by rw [List.length_drop]; omega)
        (by
          rw [List.length_drop]
          have hd3 : (m' + 1 - 1) * S = m' * S := by norm_num
          omega)]
      rw [List.take_append_drop]

/-- C6: for every non-empty image, `ProgramFlash` partitions it into
exactly `ceil(len / sectorSize)` sector windows (`sc` below), processed in
ascending index order by `sectorsLoop` with `bufferPointer = i * sectorSize`
at sector `i`; every window except the last has length `sectorSize`, the
last has length `len - (sc-1)*sectorSize`, the `bytesToTransmit` count
compared during verification equals the window's length for every sector,
and the windows concatenate back to the image. -/
theorem programFlash_sector_partition (g : Geom) (fb : List Nat) (sc : Nat)
    (hS : 0 < g.sectorSize) (h1 : 1 ≤ fb.length) (h64 : fb.length < 2 ^ 64)
    (hsc : sc = sectorCountModel g.sectorSize fb.length) :
    sc = (fb.length + g.sectorSize - 1) / g.sectorSize ∧
    (∀ i, i < sc - 1 →
      (sectorWindow g fb sc (i * g.sectorSize) i).length = g.sectorSize) ∧
    (sectorWindow g fb sc ((sc - 1) * g.sectorSize) (sc - 1)).length
      = fb.length - (sc - 1) * g.sectorSize ∧
    (∀ i, i < sc →
      bytesToTransmitModel g fb sc i
        = (sectorWindow g fb sc (i * g.sectorSize) i).length) ∧
    (List.range sc).flatMap
      (fun i => sectorWindow g fb sc (i * g.sectorSize) i) = fb := by
  have hA : sectorCountModel g.sectorSize fb.length
      = 1 + (fb.length - 1) / g.sectorSize := by
    unfold sectorCountModel
    have hmod : (fb.length + (2 ^ 64 - 1)) % 2 ^ 64 = fb.length - 1 := by omega
    rw [hmod]
  obtain ⟨q, hqdef⟩ : ∃ q, (fb.length - 1) / g.sectorSize = q := ⟨_, rfl⟩
  have hq : sc = 1 + q := by rw [hsc, hA, hqdef]
  have hdml : q * g.sectorSize ≤ fb.length - 1 := by
    rw [← hqdef]
    exact Nat.div_mul_le_self _ _
  have hup : fb.length - 1 < (q + 1) * g.sectorSize := by
    rw [← hqdef]
    exact (Nat.div_lt_iff_lt_mul hS).1 (Nat.lt_succ_self _)
  have hmid : ∀ i, i < sc - 1 →
      (sectorWindow g fb sc (i * g.sectorSize) i).length = g.sectorSize := by
    intro i hi
    have hle : i + 1 ≤ q := by omega
    have hmul : (i + 1) * g.sectorSize ≤ q * g.sectorSize :=
      Nat.mul_le_mul_right _ hle
    have hd : (i + 1) * g.sectorSize = i * g.sectorSize + g.sectorSize := by ring
    rw [sectorWindow, if_neg (by omega), List.length_take, List.length_drop]
    omega
  have hlast : (sectorWindow g fb sc ((sc - 1) * g.sectorSize) (sc - 1)).length
      = fb.length - (sc - 1) * g.sectorSize := by
    rw [sectorWindow, if_pos rfl, List.length_drop]
  refine ⟨?_, hmid, hlast, ?_, ?_⟩
  · have hadd : fb.length + g.sectorSize - 1 = (fb.length - 1) + g.sectorSize := by
      omega
    rw [hq, hadd, Nat.add_div_right _ hS, hqdef]
    exact Nat.add_comm 1 q
  · intro i hi
    by_cases hieq : i = sc - 1
    · subst hieq
      rw [bytesToTransmitModel, if_pos rfl, sectorWindow, if_pos rfl,
        List.length_drop]
    · have := hmid i (by omega)
      rw [bytesToTransmitModel, if_neg hieq, this]
  · have hub : fb.length ≤ sc * g.sectorSize := by
      have h5 : sc * g.sectorSize = (q + 1) * g.sectorSize := by rw [hq]; ring
      omega
    have hlb : (sc - 1) * g.sectorSize < fb.length := by
      have h6 : sc - 1 = q := by omega
      rw [h6]
      omega
    have := windowsJoin g.sectorSize hS sc fb h1 hub hlb
    simpa [sectorWindow] using this

/-- Witness for C6 at the spec's own test point `len = sectorSize + 1`
(sector size 4, image `[1,2,3,4,5]`): exactly 2 windows, the second of
length 1, and the windows concatenate back to the image. -/
theorem programFlash_sector_partition_witness :
    2 = (([1, 2, 3, 4, 5] : List Nat).length + gC2.sectorSize - 1) / gC2.sectorSize ∧
    (sectorWindow gC2 [1, 2, 3, 4, 5] 2 ((2 - 1) * gC2.sectorSize) (2 - 1)).length
      = ([1, 2, 3, 4, 5] : List Nat).length - (2 - 1) * gC2.sectorSize ∧
    (List.range 2).flatMap
      (fun i => sectorWindow gC2 [1, 2, 3, 4, 5] 2 (i * gC2.sectorSize) i)
      = [1, 2, 3, 4, 5] :=
  ⟨(programFlash_sector_partition gC2 [1, 2, 3, 4, 5] 2 (by decide) (by decide)
      (by norm_num) (by decide)).1,
   (programFlash_sector_partition gC2 [1, 2, 3, 4, 5] 2 (by decide) (by decide)
      (by norm_num) (by decide)).2.2.1,
   (programFlash_sector_partition gC2 [1, 2, 3, 4, 5] 2 (by decide) (by decide)
      (by norm_num) (by decide)).2.2.2.2⟩

/-- Witness for C7: with a status register busy for the first three polls
and ready at the fourth, and a budget of 5, `WaitForFlashReady` returns
success after exactly 4 polls (8 SPI calls). -/
theorem waitForFlashReady_poll_semantics_witness :
    WaitForFlashReadyM gPoll envBusyThenReady st0 =
      (.ok, ⟨st0.flash, st0.k + 2 * (3 + 1), st0.trace ++ pollEvsN (3 + 1)⟩) :=
  (waitForFlashReady_poll_semantics gPoll envBusyThenReady st0
    (fun _ => rfl)).2.1 3 (by decide) (by decide) (by decide)

/-- The concrete environment `envI` is ideal. -/
theorem idealEnvI : Ideal envI :=
  ⟨fun _ => rfl, fun _ _ _ => rfl, fun _ => by simp [envI]⟩

/-- Peeling the first element off a `flatMap` over `List.range`. -/
theorem flatMap_range_shift {α : Type} (f : Nat → List α) (m : Nat) :
    (List.range (m + 1)).flatMap f = f 0 ++ (List.range m).flatMap fun t => f (t + 1) := by
  rw [List.range_succ_eq_map, List.flatMap_cons, List.flatMap_map]

/-- The recursive chunk-event list is the `flatMap` of per-chunk events. -/
theorem chunkEvsFrom_eq (g : Geom) (len n : Nat) :
    ∀ rem i, chunkEvsFrom g len n i rem
      = (List.range rem).flatMap
          (fun t => chunkEvs ((i + t) * g.maxReadSize)
            (bytesToReadModel g len n (i + t))) := by
  intro rem
  induction rem with
  | zero => intro i; simp [chunkEvsFrom]
  | succ m ih =>
    intro i
    rw [chunkEvsFrom, flatMap_range_shift]
    congr 1
    rw [ih (i + 1)]
    refine List.flatMap_congr fun t _ => ?_
    have harg : i + (t + 1) = i + 1 + t := by omega
    rw [harg]

/-- Ceiling-division facts used by the chunking proofs: with
`c = 1 + (len-1)/S`, the length is bracketed by `(c-1)*S < len ≤ c*S` and
`c` is the usual ceiling. -/
theorem ceilFacts (S len : Nat) (hS : 0 < S) (h1 : 1 ≤ len) :
    len ≤ (1 + (len - 1) / S) * S ∧
    ((1 + (len - 1) / S) - 1) * S < len ∧
    1 + (len - 1) / S = (len + S - 1) / S := by
  obtain ⟨q, hqdef⟩ : ∃ q, (len - 1) / S = q := ⟨_, rfl⟩
  have hdml : q * S ≤ len - 1 := by
    rw [← hqdef]; exact Nat.div_mul_le_self _ _
  have hup : len - 1 < (q + 1) * S := by
    rw [← hqdef]; exact (Nat.div_lt_iff_lt_mul hS).1 (Nat.lt_succ_self _)
  have hc1 : (1 + q) * S = q * S + S := by ring
  have hc2 : (q + 1) * S = q * S + S := by ring
  refine ⟨by rw [hqdef]; omega, by rw [hqdef]; simp only [Nat.add_sub_cancel_left]; omega, ?_⟩
  have hadd : len + S - 1 = (len - 1) + S := by omega
  rw [hqdef, hadd, Nat.add_div_right _ hS, hqdef]
  exact Nat.add_comm 1 q

/-- The chunk count of `ValidateFlash` in `Nat` terms: for a non-empty
image it is `1 + (len-1)/maxReadSize`. -/
theorem chunkCountModel_eq (g : Geom) (len : Nat) (h1 : 1 ≤ len) :
    chunkCountModel g len = 1 + (len - 1) / g.maxReadSize := by
  obtain ⟨q, hqdef⟩ : ∃ q, (len - 1) / g.maxReadSize = q := ⟨_, rfl⟩
  unfold chunkCountModel
  have hcast : (len : Int) - 1 = ((len - 1 : Nat) : Int) := by omega
  rw [hcast]
  have htdiv : Int.tdiv ((len - 1 : Nat) : Int) (g.maxReadSize : Int)
      = (((len - 1) / g.maxReadSize : Nat) : Int) := rfl
  rw [htdiv, hqdef]
  omega

/-- The `ValidateFlash` read loop on a fault-free transport: starting at
chunk `n - rem` (pointer at the matching byte address), it reads the rest
of the image into the accumulator, leaves the flash unchanged, issues two
SPI calls per chunk, and appends exactly the per-chunk events. -/
theorem validateChunks_ideal (g : Geom) (env : Env)
    (hf : ∀ k, env.fault k = none) (len n : Nat)
    (hlow : (n - 1) * g.maxReadSize < len) (hhigh : len ≤ n * g.maxReadSize)
    (h24 : len ≤ 2 ^ 24) :
    ∀ rem, rem ≤ n → ∀ (acc : List Nat) (s : St),
      validateChunks g env len n rem ((n - rem) * g.maxReadSize) acc s
        = (.ok,
            acc ++ (List.range (len - (n - rem) * g.maxReadSize)).map
              (fun j => s.flash ((n - rem) * g.maxReadSize + j)),
            ⟨s.flash, s.k + 2 * rem,
              s.trace ++ chunkEvsFrom g len n (n - rem) rem⟩) := by
  intro rem
  induction rem with
  | zero =>
    intro _ acc s
    have hz : len - (n - 0) * g.maxReadSize = 0 := by
      simp only [Nat.sub_zero]
      omega
    rw [hz]
    simp [validateChunks, chunkEvsFrom]
  | succ m ih =>
    intro hrem acc s
    have hi1 : n - (m + 1) + 1 = n - m := by omega
    have he1 : (n - m) * g.maxReadSize
        = (n - (m + 1)) * g.maxReadSize + g.maxReadSize := by
      rw [← hi1]; ring
    have hbase : (n - (m + 1)) * g.maxReadSize ≤ (n - 1) * g.maxReadSize :=
      Nat.mul_le_mul_right _ (by omega)
    have haddr : addr24 ((n - (m + 1)) * g.maxReadSize)
        = (n - (m + 1)) * g.maxReadSize := by
      rw [addr24]
      exact Nat.mod_eq_of_lt (by omega)
    have hcval : (m = 0 ∧ bytesToReadModel g len n (n - (m + 1))
          = len - (n - (m + 1)) * g.maxReadSize) ∨
        (1 ≤ m ∧ bytesToReadModel g len n (n - (m + 1)) = g.maxReadSize) := by
      rw [bytesToReadModel]
      by_cases hm0 : m = 0
      · subst hm0
        left
        rw [if_pos (by omega)]
        refine ⟨rfl, ?_⟩
        have h01 : n - (0 + 1) = n - 1 := by omega
        rw [h01]
      · right
        rw [if_neg (by omega)]
        exact ⟨by omega, rfl⟩
    have hchunklen : bytesToReadModel g len n (n - (m + 1))
        ≤ len - (n - (m + 1)) * g.maxReadSize := by
      rcases hcval with ⟨_, hc⟩ | ⟨hm1, hc⟩
      · omega
      · rw [hc]
        have h2le : n - (m + 1) + 1 ≤ n - 1 := by omega
        have hc2 : (n - (m + 1)) * g.maxReadSize + g.maxReadSize
            = (n - (m + 1) + 1) * g.maxReadSize := by ring
        have hc3 : (n - (m + 1) + 1) * g.maxReadSize ≤ (n - 1) * g.maxReadSize :=
          Nat.mul_le_mul_right _ h2le
        omega
    have hrest : len - (n - (m + 1)) * g.maxReadSize
          - bytesToReadModel g len n (n - (m + 1))
        = len - (n - m) * g.maxReadSize := by
      rcases hcval with ⟨hm0, hc⟩ | ⟨hm1, hc⟩
      · subst hm0
        have hn0 : n - 0 = n := by omega
        rw [hn0, hc]
        omega
      · rw [hc]
        omega
    have hsplit : (List.range (len - (n - (m + 1)) * g.maxReadSize)).map
          (fun j => s.flash ((n - (m + 1)) * g.maxReadSize + j))
        = (List.range (bytesToReadModel g len n (n - (m + 1)))).map
            (fun j => s.flash ((n - (m + 1)) * g.maxReadSize + j))
          ++ (List.range (len - (n - m) * g.maxReadSize)).map
            (fun j => s.flash ((n - m) * g.maxReadSize + j)) := by
      have htot : len - (n - (m + 1)) * g.maxReadSize
          = bytesToReadModel g len n (n - (m + 1))
            + (len - (n - m) * g.maxReadSize) := by omega
      rw [htot, List.range_add, List.map_append, List.map_map]
      congr 1
      refine List.map_congr_left fun j hj => ?_
      show s.flash ((n - (m + 1)) * g.maxReadSize
          + (bytesToReadModel g len n (n - (m + 1)) + j))
        = s.flash ((n - m) * g.maxReadSize + j)
      rcases hcval with ⟨hm0, hc⟩ | ⟨hm1, hc⟩
      · exfalso
        subst hm0
        rw [List.mem_range] at hj
        have hn0 : n - 0 = n := by omega
        rw [hn0] at hj
        omega
      · congr 1
        rw [hc]
        omega
    have hstep1 : validateChunks g env len n (m + 1)
          ((n - (m + 1)) * g.maxReadSize) acc s
        = validateChunks g env len n m
            ((n - (m + 1)) * g.maxReadSize + g.maxReadSize)
            (acc ++ (List.range (bytesToReadModel g len n (n - (m + 1)))).map
              (fun j => s.flash ((n - (m + 1)) * g.maxReadSize + j)))
            ⟨s.flash, s.k + 1 + 1,
              s.trace ++ chunkEvs ((n - (m + 1)) * g.maxReadSize)
                (bytesToReadModel g len n (n - (m + 1)))⟩ := by
      simp [validateChunks, writeSPIm, readFlashM, hf, errOf, haddr, chunkEvs,
        IntToByteVec, List.append_assoc]
    rw [hstep1, ← he1, ih (by omega)]
    rw [hsplit, chunkEvsFrom, hi1]
    simp only [Prod.mk.injEq, St.mk.injEq, true_and, List.append_assoc]
    exact ⟨by omega, trivial⟩

/-- C10: `WriteSPI` and `ReadSPI` truncate the requested byte count to 16
bits (`(uint16)bytesToWrite`) before handing it to the driver, then compare
the driver's 16-bit transferred count against the untruncated `size_t`
request; for every request above 65535 the transferred count is below
`2^16 ≤ request`, so the comparison always fails: the call returns
`FT4222_INORRECT_TRANSFER_SIZE` even when the driver transfers everything
it was asked for, and can never return `FT4222_OK` for any driver status
and any driver behaviour. -/
theorem writeReadSPI_truncation_never_ok (n : Nat) (h : 65535 < n) :
    (∀ dt : Nat → Nat,
      WriteSPIdrv .ok n dt = .incorrectTransferSize ∧
      ReadSPIdrv .ok n dt = .incorrectTransferSize) ∧
    (∀ ds : FTStatus, ∀ dt : Nat → Nat,
      WriteSPIdrv ds n dt ≠ .ok ∧ ReadSPIdrv ds n dt ≠ .ok) := by
  have key : ∀ dt : Nat → Nat, ¬ dt (n % 65536) % 65536 = n := by
    intro dt
    have := Nat.mod_lt (dt (n % 65536)) (show 0 < 65536 by norm_num)
    omega
  refine ⟨fun dt => ?_, fun ds dt => ?_⟩
  · constructor <;> simp [WriteSPIdrv, ReadSPIdrv, key dt]
  · by_cases hds : ds = .ok
    · subst hds; constructor <;> simp [WriteSPIdrv, ReadSPIdrv, key dt]
    · constructor <;> simp [WriteSPIdrv, ReadSPIdrv, hds, key dt]

/-- Witness for C10 at the concrete request 65536 with a driver that
transfers exactly what it is asked (`id`). -/
theorem writeReadSPI_truncation_never_ok_witness :
    WriteSPIdrv .ok 65536 id = .incorrectTransferSize ∧
    ReadSPIdrv .ok 65536 id = .incorrectTransferSize :=
  (writeReadSPI_truncation_never_ok 65536 (by norm_num)).1 id

/-- C2 (code bug): on geometry `gC2` (one page per sector, retry bound 2),
a flash that persistently corrupts sector 0 (`envPersistCorrupt`) makes
`ProgramFlash` on the two-sector image `[1..8]` perform exactly 2 program
attempts on sector 0 (2 payload transfers of the window `[1,2,3,4]`), each
followed by a sector erase (2 `SectorErase` frames), and return
`FT4222_CORRUPTED_UPLOAD` with no page-program frame ever issued for
sector 1 — that part of the claim holds.  But the source increments
`attempts` and tests `attempts == MAX_SECTOR_PROGRAM_ATTEMPTS` after
setting `success` and before the loop re-tests it, so a sector that
verifies cleanly on the final allowed attempt still fails the operation:
with `envFirstAttemptCorrupt` (corruption only during the first program
attempt) the second attempt stores `[1,2,3,4]` faithfully — the final
flash holds exactly the image — yet `ProgramFlash` returns
`FT4222_CORRUPTED_UPLOAD`, contradicting the claim's final clause. -/
theorem programFlash_attempt_bound_code_bug :
    ((ProgramFlashM gC2 envPersistCorrupt [1, 2, 3, 4, 5, 6, 7, 8] st0).1
        = .corruptedUpload ∧
      ((ProgramFlashM gC2 envPersistCorrupt [1, 2, 3, 4, 5, 6, 7, 8]
            st0).2.trace.countP fun e => e == .wr [1, 2, 3, 4] 4 true) = 2 ∧
      ((ProgramFlashM gC2 envPersistCorrupt [1, 2, 3, 4, 5, 6, 7, 8]
            st0).2.trace.countP fun e =>
          e == .wr [SectorEraseCmd, 0, 0, 0] 4 true) = 2 ∧
      ((ProgramFlashM gC2 envPersistCorrupt [1, 2, 3, 4, 5, 6, 7, 8]
            st0).2.trace.countP fun e =>
          e == .wr [PageProgramCmd, 0, 0, 4] 4 false) = 0) ∧
    ((ProgramFlashM gC2 envFirstAttemptCorrupt [1, 2, 3, 4] st0).1
        = .corruptedUpload ∧
      (ProgramFlashM gC2 envFirstAttemptCorrupt [1, 2, 3, 4] st0).2.flash 0 = 1 ∧
      (ProgramFlashM gC2 envFirstAttemptCorrupt [1, 2, 3, 4] st0).2.flash 1 = 2 ∧
      (ProgramFlashM gC2 envFirstAttemptCorrupt [1, 2, 3, 4] st0).2.flash 2 = 3 ∧
      (ProgramFlashM gC2 envFirstAttemptCorrupt [1, 2, 3, 4] st0).2.flash 3 = 4) := by
  simp [ProgramFlashM, sectorsLoop, sectorCountModel, sectorWindow,
    bytesToTransmitModel, sectorAttempts, SectorProgramFlashM, pagesLoop,
    PageProgramFlashM, WriteEnableFlashM, writeSPIm, readStatusM, readFlashM,
    WaitForFlashReadyM, waitLoop, ReadSectorFlashM, EraseSectorM, applyProgram,
    applyErase, countMismatch, transmittedByte, pageCountModel, pageChunk,
    IntToByteVec, addr24, errOf, envPersistCorrupt, envFirstAttemptCorrupt,
    envI, gC2, st0, List.range_succ, List.countP_append, List.countP_cons]

/-- C3 (code bug): `PageProgramFlash` transmits its payload with
`WriteSPI(writeBuffer, FLASH_PAGE_SIZE, true)` — the byte count is the
fixed page size, not the chunk length.  On geometry `gC2` (page size 4)
programming the 1-byte chunk `[7]` issues a payload transfer whose SPI
call passes the 1-byte buffer with count 4, so the driver reads 3 bytes
past the chunk buffer and the flash cell at address 1 (past the chunk)
receives the overread byte `0xEE` instead of staying at its previous
value 0. -/
theorem pageProgram_short_chunk_overread :
    (PageProgramFlashM gC2 envI 0 [7] st0).1 = .ok ∧
    (PageProgramFlashM gC2 envI 0 [7] st0).2.trace =
      [.wr [WriteEnableCmd] 1 true,
       .wr [PageProgramCmd, 0, 0, 0] 4 false,
       .wr [7] 4 true,
       .wr [ReadStatusRegisterCmd] 1 false,
       .rd 1 true] ∧
    ([7] : List Nat).length = 1 ∧ gC2.pageSize = 4 ∧
    st0.flash 1 = 0 ∧
    (PageProgramFlashM gC2 envI 0 [7] st0).2.flash 1 = 0xEE := by
  simp [PageProgramFlashM, WriteEnableFlashM, writeSPIm, readStatusM,
    WaitForFlashReadyM, waitLoop, applyProgram, transmittedByte, IntToByteVec,
    addr24, errOf, envI, gC2, st0, ReadStatusRegisterCmd, WriteEnableCmd,
    PageProgramCmd]

/-- C4 (code bug): the source performs no input validation at all.
`ProgramFlash` on an empty image computes
`sectorCount = 1 + ((fileBuffer.size() - 1) / FLASH_SECTOR_SIZE)` in
`size_t` arithmetic, which wraps to `1 + (2^64 - 1) / sectorSize` (here
`2^62` for sector size 4) — a gigantic positive sector count, so sectors
are attempted (with out-of-bounds buffer slices) instead of returning an
input error.  `SectorProgramFlash` on a buffer of 9 bytes with sector size
8 issues 2 page programs (10 SPI calls of bus activity) and returns
`FT4222_OK`, silently truncating instead of rejecting; no status of the
source corresponds to `InvalidInput`. -/
theorem no_invalid_input_rejection :
    sectorCountModel 4 0 = 2 ^ 62 ∧ 0 < sectorCountModel 4 0 ∧
    ([1, 2, 3, 4, 5, 6, 7, 8, 9] : List Nat).length = 9 ∧ g48.sectorSize = 8 ∧
    (SectorProgramFlashM g48 envI 0 [1, 2, 3, 4, 5, 6, 7, 8, 9] st0).1 = .ok ∧
    (SectorProgramFlashM g48 envI 0 [1, 2, 3, 4, 5, 6, 7, 8, 9]
        st0).2.trace.length = 10 := by
  refine ⟨by norm_num [sectorCountModel], by norm_num [sectorCountModel],
    by norm_num, rfl, ?_⟩
  simp [SectorProgramFlashM, pagesLoop, PageProgramFlashM, WriteEnableFlashM,
    writeSPIm, readStatusM, WaitForFlashReadyM, waitLoop, applyProgram,
    transmittedByte, pageCountModel, pageChunk, IntToByteVec, addr24, errOf,
    envI, g48, st0]

/-- C5 counterexample: the claim quantifies over every buffer with
`len ≤ sectorSize`, hence also the empty buffer, for which it predicts
`ceil(0 / pageSize) = 0` page-program operations; but the source computes
`pageCount = 1 + (((int)0 - 1) / FLASH_PAGE_SIZE) = 1 + 0 = 1` (C division
truncates `-1 / 4` to `0`), so `SectorProgramFlash` on the empty buffer
issues exactly one page-program operation (with an empty payload buffer). -/
theorem sectorProgram_empty_buffer_one_page_op :
    ((SectorProgramFlashM g48 envI 0 [] st0).2.trace.countP fun e =>
        match e with
        | .wr (c :: _) _ false => c == PageProgramCmd
        | _ => false) = 1 ∧
    (0 + g48.pageSize - 1) / g48.pageSize = 0 ∧
    pageCountModel g48 0 = 1 := by
  refine ⟨?_, by decide, by decide⟩
  simp [SectorProgramFlashM, pagesLoop, PageProgramFlashM, WriteEnableFlashM,
    writeSPIm, readStatusM, WaitForFlashReadyM, waitLoop, applyProgram,
    transmittedByte, pageCountModel, pageChunk, IntToByteVec, addr24, errOf,
    envI, g48, st0, List.countP_append, List.countP_cons,
    ReadStatusRegisterCmd, PageProgramCmd, WriteEnableCmd, SectorEraseCmd,
    ReadCmd]

/-- Reading an in-range position of a mapped `List.range`. -/
theorem getD_map_range (f : Nat → Nat) (n j : Nat) (h : j < n) :
    ((List.range n).map f).getD j 0 = f j := by
  rw [List.getD_eq_getElem?_getD, List.getElem?_map, List.getElem?_range h]
  rfl

/-- The `errorCount` loop finds no mismatch exactly when the two buffers
agree on the first `n` positions. -/
theorem countMismatch_eq_zero (a b : List Nat) (n : Nat) :
    countMismatch a b n = 0 ↔ ∀ j, j < n → a.getD j 0 = b.getD j 0 := by
  rw [countMismatch, List.countP_eq_zero]
  constructor
  · intro h j hj
    have := h j (List.mem_range.2 hj)
    simpa using this
  · intro h j hjmem
    have hj := List.mem_range.1 hjmem
    have heq := h j hj
    simp only [List.getD_eq_getElem?_getD] at heq
    simp [heq]

/-- C8: for every non-empty image on a fault-free transport,
`ValidateFlash` reads the whole image length in
`n = ceil(len / maxReadSize)` chunks; every chunk before the last reads
exactly `maxReadSize` bytes, the last reads `len - (n-1)*maxReadSize ≤
maxReadSize` bytes, each chunk issues a fresh `Read` frame at the running
byte address `i * maxReadSize` followed by the chunk receive (the trace is
exactly those `2n` SPI calls), the flash is untouched, and the result is
`FT4222_OK` when the flash matches the image byte-for-byte on `[0, len)`
and `FT4222_CORRUPTED_UPLOAD` when any byte differs.  (The source casts
the image length to C `int`; the `2^24` addressability bound keeps the
3-byte read addresses exact.) -/
theorem validateFlash_chunking (g : Geom) (env : Env) (fb : List Nat)
    (n : Nat) (s : St) (hf : ∀ k, env.fault k = none)
    (hR : 0 < g.maxReadSize) (h1 : 1 ≤ fb.length) (h24 : fb.length ≤ 2 ^ 24)
    (hn : n = chunkCountModel g fb.length) :
    n = (fb.length + g.maxReadSize - 1) / g.maxReadSize ∧
    (∀ i, i < n - 1 → bytesToReadModel g fb.length n i = g.maxReadSize) ∧
    bytesToReadModel g fb.length n (n - 1)
      = fb.length - (n - 1) * g.maxReadSize ∧
    fb.length - (n - 1) * g.maxReadSize ≤ g.maxReadSize ∧
    (ValidateFlashM g env fb s).2.flash = s.flash ∧
    (ValidateFlashM g env fb s).2.k = s.k + 2 * n ∧
    (ValidateFlashM g env fb s).2.trace
      = s.trace ++ (List.range n).flatMap
          (fun i => chunkEvs (i * g.maxReadSize)
            (bytesToReadModel g fb.length n i)) ∧
    ((∀ j, j < fb.length → s.flash j = fb.getD j 0) →
      (ValidateFlashM g env fb s).1 = .ok) ∧
    ((∃ j, j < fb.length ∧ ¬ s.flash j = fb.getD j 0) →
      (ValidateFlashM g env fb s).1 = .corruptedUpload) := by
  have hceq := chunkCountModel_eq g fb.length h1
  have hfacts := ceilFacts g.maxReadSize fb.length hR h1
  have hnval : n = 1 + (fb.length - 1) / g.maxReadSize := by rw [hn, hceq]
  have hhigh : fb.length ≤ n * g.maxReadSize := by rw [hnval]; exact hfacts.1
  have hlow : (n - 1) * g.maxReadSize < fb.length := by
    rw [hnval]; exact hfacts.2.1
  have hn1 : 1 ≤ n := by rw [hnval]; exact Nat.le_add_right 1 _
  have hrun := validateChunks_ideal g env hf fb.length n hlow hhigh h24 n
    le_rfl [] s
  simp only [Nat.sub_self, Nat.zero_mul, Nat.sub_zero, Nat.zero_add,
    List.nil_append] at hrun
  have hVal : ValidateFlashM g env fb s
      = (if countMismatch ((List.range fb.length).map fun j => s.flash j)
            fb fb.length > 0
          then (.corruptedUpload,
            ⟨s.flash, s.k + 2 * n, s.trace ++ chunkEvsFrom g fb.length n 0 n⟩)
          else (.ok,
            ⟨s.flash, s.k + 2 * n,
              s.trace ++ chunkEvsFrom g fb.length n 0 n⟩)) := by
    rw [ValidateFlashM, ← hn, hrun]
  have h2nd : (ValidateFlashM g env fb s).2
      = ⟨s.flash, s.k + 2 * n, s.trace ++ chunkEvsFrom g fb.length n 0 n⟩ := by
    rw [hVal]
    split <;> rfl
  have htr : chunkEvsFrom g fb.length n 0 n
      = (List.range n).flatMap
          (fun i => chunkEvs (i * g.maxReadSize)
            (bytesToReadModel g fb.length n i)) := by
    rw [chunkEvsFrom_eq]
    simp
  have hnR : n * g.maxReadSize = (n - 1) * g.maxReadSize + g.maxReadSize := by
    obtain ⟨p, hp⟩ : ∃ p, n - 1 = p := ⟨_, rfl⟩
    have hnp : n = p + 1 := by omega
    rw [hp, hnp]; ring
  refine ⟨?_, ?_, ?_, by omega, ?_, ?_, ?_, ?_, ?_⟩
  · rw [hnval]; exact hfacts.2.2
  · intro i hi
    rw [bytesToReadModel, if_neg (by omega)]
  · rw [bytesToReadModel, if_pos rfl]
  · rw [h2nd]
  · rw [h2nd]
  · rw [h2nd, htr]
  · intro hmatch
    have hzero : countMismatch
        ((List.range fb.length).map fun j => s.flash j) fb fb.length = 0 := by
      rw [countMismatch_eq_zero]
      intro j hj
      rw [getD_map_range _ _ _ hj, hmatch j hj]
    rw [hVal, if_neg (by omega)]
  · rintro ⟨j, hj, hne⟩
    have hcnt : countMismatch ((List.range fb.length).map fun j => s.flash j)
        fb fb.length ≠ 0 := by
      intro hzero
      rw [countMismatch_eq_zero] at hzero
      refine hne ?_
      rw [← getD_map_range (fun j => s.flash j) fb.length j hj]
      exact hzero j hj
    rw [hVal, if_pos (by omega)]

/-- Witness for C8 at the spec's test point `len = 2 * maxReadChunk + 3`
(chunk cap 4, 11-byte image matching the flash): 3 chunks, the last of
size 3, and validation succeeds. -/
theorem validateFlash_chunking_witness :
    (3 : Nat) = (imgV.length + gV.maxReadSize - 1) / gV.maxReadSize ∧
    bytesToReadModel gV imgV.length 3 (3 - 1)
      = imgV.length - (3 - 1) * gV.maxReadSize ∧
    (ValidateFlashM gV envI imgV stV).1 = .ok :=
  ⟨(validateFlash_chunking gV envI imgV 3 stV (fun _ => rfl) (by decide)
      (by decide) (by decide) (by decide)).1,
   (validateFlash_chunking gV envI imgV 3 stV (fun _ => rfl) (by decide)
      (by decide) (by decide) (by decide)).2.2.1,
   (validateFlash_chunking gV envI imgV 3 stV (fun _ => rfl) (by decide)
      (by decide) (by decide) (by decide)).2.2.2.2.2.2.2.1 (by decide)⟩

/-- `getD` through `List.drop`. -/
theorem getD_drop (l : List Nat) (i j : Nat) :
    (l.drop i).getD j 0 = l.getD (i + j) 0 := by
  rw [List.getD_eq_getElem?_getD, List.getElem?_drop, ← List.getD_eq_getElem?_getD]

/-- `getD` through `List.take` at an in-range position. -/
theorem getD_take_lt (l : List Nat) (n j : Nat) (h : j < n) :
    (l.take n).getD j 0 = l.getD j 0 := by
  rw [List.getD_eq_getElem?_getD, List.getElem?_take, if_pos h,
    ← List.getD_eq_getElem?_getD]

/-- An in-range offset of a page chunk reads the corresponding buffer byte. -/
theorem pageChunk_getD (g : Geom) (sb : List Nat) (pc i d : Nat)
    (hd : d < g.pageSize) :
    (pageChunk g sb pc i).getD d 0 = sb.getD (i * g.pageSize + d) 0 := by
  rw [pageChunk]
  by_cases hc : i = pc - 1
  · rw [if_pos hc, getD_drop]
  · rw [if_neg hc, getD_take_lt _ _ _ hd, getD_drop]

/-- The chunk of page `i` is long enough to cover offset `d` whenever the
buffer itself extends past `i * pageSize + d`. -/
theorem pageChunk_covers (g : Geom) (sb : List Nat) (pc i d : Nat)
    (hd : d < g.pageSize) (hoff : i * g.pageSize + d < sb.length) :
    d < (pageChunk g sb pc i).length := by
  rw [pageChunk]
  by_cases hc : i = pc - 1
  · rw [if_pos hc, List.length_drop]
    omega
  · rw [if_neg hc, List.length_take, List.length_drop]
    omega

/-- A single ideal page program: write-enable, `PageProgram` frame, the
fixed-count payload transfer, one ready poll; the flash takes the
transmitted page at the 24-bit-truncated address, everything else is
untouched. -/
theorem pageProgram_ideal (g : Geom) (env : Env) (hI : Ideal env)
    (hW : 1 ≤ g.maxWaitTimeMs) (p : Nat) (wb : List Nat) (s : St) :
    PageProgramFlashM g env p wb s
      = (.ok,
          ⟨fun a => if addr24 (p * g.pageSize) ≤ a
              ∧ a < addr24 (p * g.pageSize) + g.pageSize
            then transmittedByte env (s.k + 1 + 1) wb (a - addr24 (p * g.pageSize))
            else s.flash a,
           s.k + 1 + 1 + 1 + 2,
           s.trace ++ pageOpEvs g (p * g.pageSize) wb⟩) := by
  obtain ⟨hf, hs, hr⟩ := hI
  rw [PageProgramFlashM]
  simp only [WriteEnableFlashM, writeSPIm, hf, errOf]
  rw [WaitForFlashReadyM, waitLoop_ready_first env hf g.maxWaitTimeMs hW (hr _)]
  simp [applyProgram, hs, pageOpEvs, pollEvs, List.append_assoc, IntToByteVec]

/-- The page count of `SectorProgramFlash` in `Nat` terms: for a non-empty
buffer of at most one sector it is `1 + (len-1)/pageSize` (the source's
two branches agree there, using that the sector size is a multiple of the
page size). -/
theorem pageCountModel_eq (g : Geom) (len : Nat) (h1 : 1 ≤ len)
    (hle : len ≤ g.sectorSize) (hP : 0 < g.pageSize)
    (hdvd : g.pageSize ∣ g.sectorSize) :
    pageCountModel g len = 1 + (len - 1) / g.pageSize := by
  unfold pageCountModel
  by_cases hlt : len < g.sectorSize
  · rw [if_pos (by exact_mod_cast hlt)]
    obtain ⟨q, hqdef⟩ : ∃ q, (len - 1) / g.pageSize = q := ⟨_, rfl⟩
    have hcast : (len : Int) - 1 = ((len - 1 : Nat) : Int) := by omega
    rw [hcast]
    have htdiv : Int.tdiv ((len - 1 : Nat) : Int) (g.pageSize : Int)
        = (((len - 1) / g.pageSize : Nat) : Int) := rfl
    rw [htdiv, hqdef]
    omega
  · have hlenS : len = g.sectorSize := by omega
    rw [if_neg (by exact_mod_cast hlt)]
    have htdiv2 : Int.tdiv (g.sectorSize : Int) (g.pageSize : Int)
        = ((g.sectorSize / g.pageSize : Nat) : Int) := rfl
    rw [htdiv2]
    subst hlenS
    obtain ⟨c, hc⟩ := hdvd
    have hc1 : 1 ≤ c := by
      rcases Nat.eq_zero_or_pos c with h0 | h0
      · rw [h0, Nat.mul_zero] at hc
        omega
      · exact h0
    obtain ⟨c', rfl⟩ : ∃ c', c = c' + 1 := ⟨c - 1, by omega⟩
    rw [hc]
    have e1 : g.pageSize * (c' + 1) / g.pageSize = c' + 1 :=
      Nat.mul_div_cancel_left _ hP
    have e2 : (g.pageSize * (c' + 1) - 1) / g.pageSize = c' := by
      have hsplit : g.pageSize * (c' + 1) - 1
          = (g.pageSize - 1) + c' * g.pageSize := by
        have hx : g.pageSize * (c' + 1) = c' * g.pageSize + g.pageSize := by ring
        omega
      rw [hsplit, Nat.add_mul_div_right _ _ hP, Nat.div_eq_of_lt (by omega)]
      omega
    rw [e1, e2]
    omega

/-- Dividing one less than a positive multiple of `P` by `P`. -/
theorem mul_succ_sub_one_div (P c : Nat) (hP : 0 < P) :
    (P * (c + 1) - 1) / P = c := by
  have hsplit : P * (c + 1) - 1 = (P - 1) + c * P := by
    have hx : P * (c + 1) = c * P + P := by ring
    omega
  rw [hsplit, Nat.add_mul_div_right _ _ hP, Nat.div_eq_of_lt (by omega)]
  omega

/-- For a positive multiple `S` of `P`, `(S-1)/P = S/P - 1`. -/
theorem sub_one_div_of_dvd (P S : Nat) (hP : 0 < P) (hdvd : P ∣ S)
    (hS : 1 ≤ S) : (S - 1) / P = S / P - 1 := by
  obtain ⟨c, rfl⟩ := hdvd
  cases c with
  | zero =>
    rw [Nat.mul_zero] at hS
    omega
  | succ c' =>
    rw [mul_succ_sub_one_div P c' hP, Nat.mul_div_cancel_left _ hP]
    omega

/-- The recursive page-event list is the `flatMap` of per-page events. -/
theorem pageEvsFrom_eq (g : Geom) (sb : List Nat) (psi pc : Nat) :
    ∀ rem, rem ≤ pc →
      pageEvsFrom g sb psi pc rem
        = (List.range rem).flatMap
            (fun t => pageOpEvs g ((psi + (pc - rem + t)) * g.pageSize)
              (pageChunk g sb pc (pc - rem + t))) := by
  intro rem
  induction rem with
  | zero => intro _; simp [pageEvsFrom]
  | succ m ih =>
    intro hrem
    rw [pageEvsFrom, flatMap_range_shift]
    congr 1
    rw [ih (by omega)]
    refine List.flatMap_congr fun t _ => ?_
    have harg : pc - (m + 1) + (t + 1) = pc - m + t := by omega
    rw [harg]

/-- The ideal run of the page loop of `SectorProgramFlash` from page
`pc - rem`: it succeeds, issues 5 SPI calls per page (appending exactly
the page events), writes the remaining buffer bytes at their sector
offsets, and changes nothing outside the remaining page range. -/
theorem pagesLoop_ideal (g : Geom) (env : Env) (hI : Ideal env)
    (hW : 1 ≤ g.maxWaitTimeMs) (hP : 0 < g.pageSize)
    (psi : Nat) (sb : List Nat) (pc : Nat)
    (hcl : (pc - 1) * g.pageSize < sb.length)
    (hch : sb.length ≤ pc * g.pageSize)
    (ha : (psi + pc) * g.pageSize ≤ 2 ^ 24) :
    ∀ rem, rem ≤ pc → ∀ s : St,
      (pagesLoop g env psi sb pc rem s).1 = .ok ∧
      (pagesLoop g env psi sb pc rem s).2.k = s.k + 5 * rem ∧
      (pagesLoop g env psi sb pc rem s).2.trace
        = s.trace ++ pageEvsFrom g sb psi pc rem ∧
      (∀ a, (a < (psi + (pc - rem)) * g.pageSize ∨ (psi + pc) * g.pageSize ≤ a) →
        (pagesLoop g env psi sb pc rem s).2.flash a = s.flash a) ∧
      (∀ off, (pc - rem) * g.pageSize ≤ off → off < sb.length →
        (pagesLoop g env psi sb pc rem s).2.flash (psi * g.pageSize + off)
          = sb.getD off 0) := by
  intro rem
  induction rem with
  | zero =>
    intro _ s
    refine ⟨rfl, by simp [pagesLoop], by simp [pagesLoop, pageEvsFrom],
      fun a _ => rfl, ?_⟩
    intro off hlo _
    rw [Nat.sub_zero] at hlo
    omega
  | succ rem ih =>
    intro hrem s
    have hi1 : pc - (rem + 1) + 1 = pc - rem := by omega
    have hd1 : (psi + (pc - (rem + 1))) * g.pageSize
        = psi * g.pageSize + (pc - (rem + 1)) * g.pageSize := by ring
    have hd2 : (psi + (pc - (rem + 1)) + 1) * g.pageSize
        = (psi + (pc - (rem + 1))) * g.pageSize + g.pageSize := by ring
    have hd3 : (pc - rem) * g.pageSize
        = (pc - (rem + 1)) * g.pageSize + g.pageSize := by
      rw [← hi1]; ring
    have hd4 : (psi + (pc - rem)) * g.pageSize
        = psi * g.pageSize + (pc - rem) * g.pageSize := by ring
    have hmono : psi + (pc - (rem + 1)) + 1 ≤ psi + pc := by omega
    have hbp : (psi + (pc - (rem + 1))) * g.pageSize + g.pageSize
        ≤ (psi + pc) * g.pageSize := by
      have := Nat.mul_le_mul_right g.pageSize hmono
      omega
    have haddr : addr24 ((psi + (pc - (rem + 1))) * g.pageSize)
        = (psi + (pc - (rem + 1))) * g.pageSize := by
      rw [addr24]
      exact Nat.mod_eq_of_lt (by omega)
    have hstep : pagesLoop g env psi sb pc (rem + 1) s
        = pagesLoop g env psi sb pc rem
            ⟨fun a => if (psi + (pc - (rem + 1))) * g.pageSize ≤ a
                  ∧ a < (psi + (pc - (rem + 1))) * g.pageSize + g.pageSize
                then transmittedByte env (s.k + 1 + 1)
                  (pageChunk g sb pc (pc - (rem + 1)))
                  (a - (psi + (pc - (rem + 1))) * g.pageSize)
                else s.flash a,
              s.k + 1 + 1 + 1 + 2,
              s.trace ++ pageOpEvs g ((psi + (pc - (rem + 1))) * g.pageSize)
                (pageChunk g sb pc (pc - (rem + 1)))⟩ := by
      simp only [pagesLoop]
      rw [pageProgram_ideal g env hI hW, haddr]
    rw [hstep]
    obtain ⟨hok, hk, htrace, hout, hwin⟩ := ih (by omega) _
    refine ⟨hok, by rw [hk]; simp only [St.mk.injEq]; omega, ?_, ?_, ?_⟩
    · rw [htrace]
      simp only [St.mk.injEq]
      rw [pageEvsFrom, List.append_assoc]
    · intro a hcase
      have hlt : a < (psi + (pc - rem)) * g.pageSize ∨ (psi + pc) * g.pageSize ≤ a := by
        rcases hcase with hc | hc
        · left
          have := Nat.mul_le_mul_right g.pageSize
            (show psi + (pc - (rem + 1)) ≤ psi + (pc - rem) by omega)
          omega
        · right; exact hc
      rw [hout a hlt]
      show (if _ ∧ _ then _ else _) = s.flash a
      rw [if_neg (by omega)]
    · intro off hlo hhi
      by_cases hoffc : off < (pc - rem) * g.pageSize
      · have ha_lt : psi * g.pageSize + off < (psi + (pc - rem)) * g.pageSize := by
          omega
        rw [hout _ (Or.inl ha_lt)]
        have hcond : (psi + (pc - (rem + 1))) * g.pageSize ≤ psi * g.pageSize + off
            ∧ psi * g.pageSize + off
              < (psi + (pc - (rem + 1))) * g.pageSize + g.pageSize := by omega
        show (if _ ∧ _ then _ else _) = sb.getD off 0
        rw [if_pos hcond]
        have hidx : psi * g.pageSize + off - (psi + (pc - (rem + 1))) * g.pageSize
            = off - (pc - (rem + 1)) * g.pageSize := by omega
        rw [hidx]
        have hdlt : off - (pc - (rem + 1)) * g.pageSize < g.pageSize := by omega
        have hoffeq : (pc - (rem + 1)) * g.pageSize
            + (off - (pc - (rem + 1)) * g.pageSize) = off := by omega
        rw [transmittedByte,
          if_pos (pageChunk_covers g sb pc _ _ hdlt (by omega)),
          pageChunk_getD g sb pc _ _ hdlt, hoffeq]
      · exact hwin off (by omega) hhi

/-- The ideal run of `SectorProgramFlash` on a non-empty buffer of at most
one sector: it succeeds, issues exactly the page events, programs the
buffer at its sector offsets, and touches nothing outside the sector. -/
theorem sectorProgram_ideal (g : Geom) (env : Env) (hI : Ideal env)
    (hW : 1 ≤ g.maxWaitTimeMs) (hP : 0 < g.pageSize) (hS : 0 < g.sectorSize)
    (hdvd : g.pageSize ∣ g.sectorSize) (sectorIndex : Nat) (sb : List Nat)
    (h1 : 1 ≤ sb.length) (hle : sb.length ≤ g.sectorSize)
    (haddr : (sectorIndex + 1) * g.sectorSize ≤ 2 ^ 24) (s : St) :
    (SectorProgramFlashM g env sectorIndex sb s).1 = .ok ∧
    (SectorProgramFlashM g env sectorIndex sb s).2.k
      = s.k + 5 * pageCountModel g sb.length ∧
    (SectorProgramFlashM g env sectorIndex sb s).2.trace
      = s.trace ++ pageEvsFrom g sb (sectorIndex * (g.sectorSize / g.pageSize))
          (pageCountModel g sb.length) (pageCountModel g sb.length) ∧
    (∀ a, (a < sectorIndex * g.sectorSize ∨ (sectorIndex + 1) * g.sectorSize ≤ a) →
      (SectorProgramFlashM g env sectorIndex sb s).2.flash a = s.flash a) ∧
    (∀ off, off < sb.length →
      (SectorProgramFlashM g env sectorIndex sb s).2.flash
        (sectorIndex * g.sectorSize + off) = sb.getD off 0) := by
  have hSP : g.sectorSize / g.pageSize * g.pageSize = g.sectorSize :=
    Nat.div_mul_cancel hdvd
  have hpceq := pageCountModel_eq g sb.length h1 hle hP hdvd
  have hfacts := ceilFacts g.pageSize sb.length hP h1
  have hch : sb.length ≤ pageCountModel g sb.length * g.pageSize := by
    rw [hpceq]; exact hfacts.1
  have hcl : (pageCountModel g sb.length - 1) * g.pageSize < sb.length := by
    rw [hpceq]; exact hfacts.2.1
  have hratio1 : 1 ≤ g.sectorSize / g.pageSize := by
    rcases Nat.eq_zero_or_pos (g.sectorSize / g.pageSize) with h0 | h0
    · rw [h0, Nat.zero_mul] at hSP
      omega
    · exact h0
  have hqle : (sb.length - 1) / g.pageSize ≤ (g.sectorSize - 1) / g.pageSize :=
    Nat.div_le_div_right (by omega)
  have hSm1 : (g.sectorSize - 1) / g.pageSize = g.sectorSize / g.pageSize - 1 :=
    sub_one_div_of_dvd g.pageSize g.sectorSize hP hdvd (by omega)
  have hpcle : pageCountModel g sb.length ≤ g.sectorSize / g.pageSize := by
    rw [hpceq]
    omega
  have hstep1 : sectorIndex * (g.sectorSize / g.pageSize) + pageCountModel g sb.length
      ≤ (sectorIndex + 1) * (g.sectorSize / g.pageSize) := by
    have hdist : (sectorIndex + 1) * (g.sectorSize / g.pageSize)
        = sectorIndex * (g.sectorSize / g.pageSize) + g.sectorSize / g.pageSize := by
      ring
    omega
  have hstep3 : (sectorIndex + 1) * (g.sectorSize / g.pageSize) * g.pageSize
      = (sectorIndex + 1) * g.sectorSize := by
    rw [Nat.mul_assoc, hSP]
  have ha24 : (sectorIndex * (g.sectorSize / g.pageSize)
        + pageCountModel g sb.length) * g.pageSize ≤ 2 ^ 24 := by
    have hs2 := Nat.mul_le_mul_right g.pageSize hstep1
    omega
  have hbase : sectorIndex * (g.sectorSize / g.pageSize) * g.pageSize
      = sectorIndex * g.sectorSize := by
    rw [Nat.mul_assoc, hSP]
  have hub : (sectorIndex * (g.sectorSize / g.pageSize)
        + pageCountModel g sb.length) * g.pageSize
      ≤ (sectorIndex + 1) * g.sectorSize := by
    have hs2 := Nat.mul_le_mul_right g.pageSize hstep1
    omega
  obtain ⟨hok, hk, htrace, hout, hwin⟩ :=
    pagesLoop_ideal g env hI hW hP
      (sectorIndex * (g.sectorSize / g.pageSize)) sb
      (pageCountModel g sb.length) hcl hch ha24
      (pageCountModel g sb.length) le_rfl s
  have hun : SectorProgramFlashM g env sectorIndex sb s
      = pagesLoop g env (sectorIndex * (g.sectorSize / g.pageSize)) sb
          (pageCountModel g sb.length) (pageCountModel g sb.length) s := by
    simp only [SectorProgramFlashM]
  rw [hun]
  refine ⟨hok, hk, htrace, ?_, ?_⟩
  · intro a hcase
    refine hout a ?_
    rcases hcase with hc | hc
    · left
      have hz : sectorIndex * (g.sectorSize / g.pageSize)
            + (pageCountModel g sb.length - pageCountModel g sb.length)
          = sectorIndex * (g.sectorSize / g.pageSize) := by omega
      rw [hz, hbase]
      omega
    · right
      omega
  · intro off hoff
    have := hwin off (by rw [Nat.sub_self, Nat.zero_mul]; omega) hoff
    rw [← hbase]
    simpa using this

/-- C5 (amended: the original claim quantified over all `len ≤ sectorSize`,
but the empty buffer issues one page program, see the counterexample; this
theorem is the claim restricted to `0 < len`): on an ideal transport,
`SectorProgramFlash` on a buffer with `0 < len ≤ sectorSize` issues exactly
`ceil(len / pageSize)` page-program operations over consecutive chunks
(`pageChunk`, final chunk possibly shorter), each consisting of
write-enable, the `PageProgram` frame at address `(sectorIndex *
(sectorSize/pageSize) + t) * pageSize` with the transaction held open, the
payload transfer ending it, and one ready poll (`pageOpEvs`). -/
theorem sectorProgram_page_partition (g : Geom) (env : Env) (hI : Ideal env)
    (hW : 1 ≤ g.maxWaitTimeMs) (hP : 0 < g.pageSize) (hS : 0 < g.sectorSize)
    (hdvd : g.pageSize ∣ g.sectorSize) (sectorIndex : Nat) (sb : List Nat)
    (h1 : 1 ≤ sb.length) (hle : sb.length ≤ g.sectorSize)
    (haddr : (sectorIndex + 1) * g.sectorSize ≤ 2 ^ 24) (s : St) :
    pageCountModel g sb.length = (sb.length + g.pageSize - 1) / g.pageSize ∧
    (SectorProgramFlashM g env sectorIndex sb s).1 = .ok ∧
    (SectorProgramFlashM g env sectorIndex sb s).2.trace
      = s.trace ++ (List.range (pageCountModel g sb.length)).flatMap
          (fun t => pageOpEvs g
            ((sectorIndex * (g.sectorSize / g.pageSize) + t) * g.pageSize)
            (pageChunk g sb (pageCountModel g sb.length) t)) := by
  obtain ⟨hok, _, htrace, _, _⟩ :=
    sectorProgram_ideal g env hI hW hP hS hdvd sectorIndex sb h1 hle haddr s
  refine ⟨?_, hok, ?_⟩
  · rw [pageCountModel_eq g sb.length h1 hle hP hdvd]
    exact (ceilFacts g.pageSize sb.length hP h1).2.2
  · rw [htrace,
      pageEvsFrom_eq g sb (sectorIndex * (g.sectorSize / g.pageSize))
        (pageCountModel g sb.length) (pageCountModel g sb.length) le_rfl]
    simp

/-- Witness for C5 at the spec's test point `sectorSize = 4 * pageSize`
with a full sector (geometry `gFour`, sector index 1): exactly 4
page-program operations at addresses `8, 10, 12, 14` (= base, base+P,
base+2P, base+3P for base 8, P = 2). -/
theorem sectorProgram_page_partition_witness :
    pageCountModel gFour ([1, 2, 3, 4, 5, 6, 7, 8] : List Nat).length
      = (([1, 2, 3, 4, 5, 6, 7, 8] : List Nat).length + gFour.pageSize - 1)
        / gFour.pageSize ∧
    (SectorProgramFlashM gFour envI 1 [1, 2, 3, 4, 5, 6, 7, 8] st0).1 = .ok ∧
    (SectorProgramFlashM gFour envI 1 [1, 2, 3, 4, 5, 6, 7, 8] st0).2.trace
      = st0.trace ++ (List.range
          (pageCountModel gFour ([1, 2, 3, 4, 5, 6, 7, 8] : List Nat).length)).flatMap
          (fun t => pageOpEvs gFour
            ((1 * (gFour.sectorSize / gFour.pageSize) + t) * gFour.pageSize)
            (pageChunk gFour [1, 2, 3, 4, 5, 6, 7, 8]
              (pageCountModel gFour ([1, 2, 3, 4, 5, 6, 7, 8] : List Nat).length) t)) :=
  sectorProgram_page_partition gFour envI idealEnvI (by decide) (by decide)
    (by decide) ⟨4, rfl⟩ 1 [1, 2, 3, 4, 5, 6, 7, 8] (by decide) (by decide)
    (by decide) st0

/-- The sector count of `ProgramFlash` in `Nat` terms: for a non-empty
image below the `size_t` range it is `1 + (len-1)/sectorSize`. -/
theorem sectorCountModel_eq (S len : Nat) (h1 : 1 ≤ len)
    (h64 : len < 2 ^ 64) :
    sectorCountModel S len = 1 + (len - 1) / S := by
  unfold sectorCountModel
  have hmod : (len + (2 ^ 64 - 1)) % 2 ^ 64 = len - 1 := by omega
  rw [hmod]

/-- An ideal `ReadSectorFlash`: the `Read` frame then a full-sector
receive streaming the flash at the sector base; the state changes only by
the two SPI calls. -/
theorem readSector_ideal (g : Geom) (env : Env)
    (hf : ∀ k, env.fault k = none) (i : Nat)
    (haddr : i * g.sectorSize < 2 ^ 24) (s : St) :
    ReadSectorFlashM g env i s
      = (.ok,
          (List.range g.sectorSize).map (fun j => s.flash (i * g.sectorSize + j)),
          ⟨s.flash, s.k + 1 + 1,
            s.trace ++ chunkEvs (i * g.sectorSize) g.sectorSize⟩) := by
  rw [ReadSectorFlashM]
  simp only [writeSPIm, readFlashM, hf, errOf]
  rw [show addr24 (i * g.sectorSize) = i * g.sectorSize from
    Nat.mod_eq_of_lt haddr]
  simp [chunkEvs, IntToByteVec, List.append_assoc]

/-- Shape of the sector window at index `i` (with `bufferPointer =
i * sectorSize`): it is non-empty, at most a sector, its length is the
`bytesToTransmit` count, it reads back the image bytes at the matching
offsets, and it covers the image exactly up to `min len ((i+1)*sectorSize)`. -/
theorem windowFacts (g : Geom) (fb : List Nat) (sc i : Nat)
    (hS : 0 < g.sectorSize) (h1 : 1 ≤ fb.length)
    (hsc : sc = 1 + (fb.length - 1) / g.sectorSize) (hi : i < sc) :
    1 ≤ (sectorWindow g fb sc (i * g.sectorSize) i).length ∧
    (sectorWindow g fb sc (i * g.sectorSize) i).length ≤ g.sectorSize ∧
    bytesToTransmitModel g fb sc i
      = (sectorWindow g fb sc (i * g.sectorSize) i).length ∧
    (∀ off, off < (sectorWindow g fb sc (i * g.sectorSize) i).length →
      (sectorWindow g fb sc (i * g.sectorSize) i).getD off 0
        = fb.getD (i * g.sectorSize + off) 0) ∧
    i * g.sectorSize + (sectorWindow g fb sc (i * g.sectorSize) i).length
      = min fb.length ((i + 1) * g.sectorSize) := by
  obtain ⟨q, hqdef⟩ : ∃ q, (fb.length - 1) / g.sectorSize = q := ⟨_, rfl⟩
  have hscq : sc = 1 + q := by rw [hsc, hqdef]
  have hdml : q * g.sectorSize ≤ fb.length - 1 := by
    rw [← hqdef]; exact Nat.div_mul_le_self _ _
  have hup : fb.length - 1 < (q + 1) * g.sectorSize := by
    rw [← hqdef]; exact (Nat.div_lt_iff_lt_mul hS).1 (Nat.lt_succ_self _)
  by_cases hc : i = sc - 1
  · have hiq : i = q := by omega
    subst hiq
    have hd1 : (i + 1) * g.sectorSize = i * g.sectorSize + g.sectorSize := by
      ring
    have hlen : (sectorWindow g fb sc (i * g.sectorSize) i).length
        = fb.length - i * g.sectorSize := by
      rw [sectorWindow, if_pos hc, List.length_drop]
    refine ⟨by omega, by omega, ?_, ?_, by omega⟩
    · rw [bytesToTransmitModel, if_pos hc, hlen]
    · intro off _
      rw [sectorWindow, if_pos hc, getD_drop]
  · have hile : i + 1 ≤ q := by omega
    have hmul : (i + 1) * g.sectorSize ≤ q * g.sectorSize :=
      Nat.mul_le_mul_right _ hile
    have hd1 : (i + 1) * g.sectorSize = i * g.sectorSize + g.sectorSize := by
      ring
    have hlen : (sectorWindow g fb sc (i * g.sectorSize) i).length
        = g.sectorSize := by
      rw [sectorWindow, if_neg hc, List.length_take, List.length_drop]
      omega
    refine ⟨by omega, by omega, ?_, ?_, by omega⟩
    · rw [bytesToTransmitModel, if_neg hc, hlen]
    · intro off hoff
      rw [hlen] at hoff
      rw [sectorWindow, if_neg hc, getD_take_lt _ _ _ hoff, getD_drop]

/-- One ideal pass of the `while (!success)` retry loop: with at least two
allowed attempts, the first attempt programs the window, reads it back with
zero mismatches, and the loop exits successfully (the buffer is in flash,
nothing outside the sector is touched). -/
theorem sectorAttempts_ideal (g : Geom) (env : Env) (hI : Ideal env)
    (hW : 1 ≤ g.maxWaitTimeMs) (hP : 0 < g.pageSize) (hS : 0 < g.sectorSize)
    (hdvd : g.pageSize ∣ g.sectorSize) (i : Nat) (sb : List Nat) (bt : Nat)
    (hbt : bt = sb.length) (h1 : 1 ≤ sb.length) (hle : sb.length ≤ g.sectorSize)
    (haddr : (i + 1) * g.sectorSize ≤ 2 ^ 24)
    (hA : 2 ≤ g.maxSectorProgramAttempts) (s : St) :
    (sectorAttempts g env i sb bt g.maxSectorProgramAttempts s).1 = .ok ∧
    (∀ a, (a < i * g.sectorSize ∨ (i + 1) * g.sectorSize ≤ a) →
      (sectorAttempts g env i sb bt g.maxSectorProgramAttempts s).2.flash a
        = s.flash a) ∧
    (∀ off, off < sb.length →
      (sectorAttempts g env i sb bt g.maxSectorProgramAttempts s).2.flash
        (i * g.sectorSize + off) = sb.getD off 0) := by
  obtain ⟨m, hm⟩ : ∃ m, g.maxSectorProgramAttempts = m + 2 :=
    ⟨g.maxSectorProgramAttempts - 2, by omega⟩
  rw [hm]
  obtain ⟨hok1, hk1, htr1, hout1, hwin1⟩ :=
    sectorProgram_ideal g env hI hW hP hS hdvd i sb h1 hle haddr s
  obtain ⟨s1, hs1⟩ : ∃ s1, SectorProgramFlashM g env i sb s = (.ok, s1) :=
    ⟨(SectorProgramFlashM g env i sb s).2, by rw [← hok1]⟩
  rw [hs1] at hout1 hwin1
  have hi24 : i * g.sectorSize < 2 ^ 24 := by
    have hd : (i + 1) * g.sectorSize = i * g.sectorSize + g.sectorSize := by ring
    omega
  have hread := readSector_ideal g env hI.1 i hi24 s1
  have hzero : countMismatch
      ((List.range g.sectorSize).map
        (fun j => s1.flash (i * g.sectorSize + j)))
      sb bt = 0 := by
    rw [countMismatch_eq_zero]
    intro j hj
    rw [hbt] at hj
    rw [getD_map_range _ _ _ (by omega), hwin1 j hj]
  have hrun : sectorAttempts g env i sb bt (m + 2) s
      = (.ok,
          ⟨s1.flash, s1.k + 1 + 1,
            s1.trace ++ chunkEvs (i * g.sectorSize) g.sectorSize⟩) := by
    simp only [sectorAttempts, hs1, hread, hzero]
    simp
  refine ⟨by rw [hrun], fun a ha => ?_, fun off hoff => ?_⟩
  · rw [hrun]
    exact hout1 a ha
  · rw [hrun]
    exact hwin1 off hoff

/-- The ideal run of the sector loop of `ProgramFlash` from sector
`sc - rem`: given that the flash already holds the image below the current
buffer pointer, the loop succeeds and afterwards the flash holds the whole
image on `[0, len)`. -/
theorem sectorsLoop_ideal (g : Geom) (env : Env) (hI : Ideal env)
    (hW : 1 ≤ g.maxWaitTimeMs) (hP : 0 < g.pageSize) (hS : 0 < g.sectorSize)
    (hdvd : g.pageSize ∣ g.sectorSize) (hA : 2 ≤ g.maxSectorProgramAttempts)
    (fb : List Nat) (sc : Nat) (h1 : 1 ≤ fb.length)
    (hsc : sc = 1 + (fb.length - 1) / g.sectorSize)
    (haddr : sc * g.sectorSize ≤ 2 ^ 24) :
    ∀ rem, rem ≤ sc → ∀ s : St,
      (∀ a, a < fb.length → a < (sc - rem) * g.sectorSize →
        s.flash a = fb.getD a 0) →
      (sectorsLoop g env fb sc rem ((sc - rem) * g.sectorSize) s).1 = .ok ∧
      (∀ a, a < fb.length →
        (sectorsLoop g env fb sc rem ((sc - rem) * g.sectorSize) s).2.flash a
          = fb.getD a 0) := by
  have hub : fb.length ≤ sc * g.sectorSize := by
    rw [hsc]
    exact (ceilFacts g.sectorSize fb.length hS h1).1
  intro rem
  induction rem with
  | zero =>
    intro _ s hinv
    refine ⟨rfl, ?_⟩
    intro a ha
    exact hinv a ha (by rw [Nat.sub_zero]; omega)
  | succ rem ih =>
    intro hrem s hinv
    have hi1 : sc - (rem + 1) + 1 = sc - rem := by omega
    have hilt : sc - (rem + 1) < sc := by omega
    obtain ⟨hw1, hwle, hwbt, hwgetd, hwmin⟩ :=
      windowFacts g fb sc (sc - (rem + 1)) hS h1 hsc hilt
    have hja : (sc - (rem + 1) + 1) * g.sectorSize = (sc - rem) * g.sectorSize := by
      rw [hi1]
    have hsecaddr : (sc - (rem + 1) + 1) * g.sectorSize ≤ 2 ^ 24 := by
      have := Nat.mul_le_mul_right g.sectorSize
        (show sc - (rem + 1) + 1 ≤ sc by omega)
      omega
    obtain ⟨haok, haout, hawin⟩ :=
      sectorAttempts_ideal g env hI hW hP hS hdvd (sc - (rem + 1))
        (sectorWindow g fb sc ((sc - (rem + 1)) * g.sectorSize) (sc - (rem + 1)))
        (bytesToTransmitModel g fb sc (sc - (rem + 1)))
        hwbt hw1 hwle hsecaddr hA s
    obtain ⟨t, ht⟩ : ∃ t, sectorAttempts g env (sc - (rem + 1))
        (sectorWindow g fb sc ((sc - (rem + 1)) * g.sectorSize) (sc - (rem + 1)))
        (bytesToTransmitModel g fb sc (sc - (rem + 1)))
        g.maxSectorProgramAttempts s = (.ok, t) :=
      ⟨_, by rw [← haok]⟩
    rw [ht] at haout hawin
    have he1 : (sc - rem) * g.sectorSize
        = (sc - (rem + 1)) * g.sectorSize + g.sectorSize := by
      rw [← hi1]; ring
    have hstep : sectorsLoop g env fb sc (rem + 1)
          ((sc - (rem + 1)) * g.sectorSize) s
        = sectorsLoop g env fb sc rem
            ((sc - (rem + 1)) * g.sectorSize + g.sectorSize) t := by
      simp only [sectorsLoop, ht]
    rw [hstep, ← he1]
    refine ih (by omega) _ ?_
    intro a ha halt
    by_cases hcase : a < (sc - (rem + 1)) * g.sectorSize
    · rw [haout a (Or.inl hcase)]
      exact hinv a ha hcase
    · have hoff2 : a - (sc - (rem + 1)) * g.sectorSize
          < (sectorWindow g fb sc ((sc - (rem + 1)) * g.sectorSize)
              (sc - (rem + 1))).length := by
        omega
      have hwrite := hawin (a - (sc - (rem + 1)) * g.sectorSize) hoff2
      rw [show (sc - (rem + 1)) * g.sectorSize
          + (a - (sc - (rem + 1)) * g.sectorSize) = a from by omega] at hwrite
      rw [hwrite, hwgetd _ hoff2,
        show (sc - (rem + 1)) * g.sectorSize
          + (a - (sc - (rem + 1)) * g.sectorSize) = a from by omega]

/-- C1: on an ideal transport and flash (no faults, faithful storage,
always-ready status), `ProgramFlash` on a non-empty image whose rounded-up
sector range is addressable returns `FT4222_OK`, and afterwards the flash
holds exactly the image on addresses `[0, len)`.  The retry bound must be
at least 2 because of the `attempts == MAX_SECTOR_PROGRAM_ATTEMPTS` check
that fires even after a successful verification (see C2): with
`MAX_SECTOR_PROGRAM_ATTEMPTS = 1` even a perfect run returns
`FT4222_CORRUPTED_UPLOAD`.  The geometry constants live in `IceBoard.h`
(not in `src/`), so they appear as parameters constrained by the spec's
invariants. -/
theorem programFlash_ideal_writes_image (g : Geom) (env : Env)
    (hI : Ideal env) (hW : 1 ≤ g.maxWaitTimeMs) (hP : 0 < g.pageSize)
    (hS : 0 < g.sectorSize) (hdvd : g.pageSize ∣ g.sectorSize)
    (hA : 2 ≤ g.maxSectorProgramAttempts) (fb : List Nat)
    (h1 : 1 ≤ fb.length) (h64 : fb.length < 2 ^ 64)
    (haddr : sectorCountModel g.sectorSize fb.length * g.sectorSize ≤ 2 ^ 24)
    (s : St) :
    (ProgramFlashM g env fb s).1 = .ok ∧
    ∀ a, a < fb.length →
      (ProgramFlashM g env fb s).2.flash a = fb.getD a 0 := by
  have hsceq := sectorCountModel_eq g.sectorSize fb.length h1 h64
  have hvac : ∀ a, a < fb.length →
      a < (sectorCountModel g.sectorSize fb.length
        - sectorCountModel g.sectorSize fb.length) * g.sectorSize →
      s.flash a = fb.getD a 0 := by
    intro a _ hlt
    rw [Nat.sub_self, Nat.zero_mul] at hlt
    exact absurd hlt (Nat.not_lt_zero a)
  have hrun := sectorsLoop_ideal g env hI hW hP hS hdvd hA fb
    (sectorCountModel g.sectorSize fb.length) h1 hsceq haddr
    (sectorCountModel g.sectorSize fb.length) le_rfl s hvac
  rw [Nat.sub_self, Nat.zero_mul] at hrun
  have hPF : ProgramFlashM g env fb s
      = sectorsLoop g env fb (sectorCountModel g.sectorSize fb.length)
          (sectorCountModel g.sectorSize fb.length) 0 s := rfl
  rw [hPF]
  exact hrun

/-- Witness for C1: geometry `gFour` (pages of 2 bytes, sectors of 8), the
9-byte image `imgNine` (one full sector plus one byte), ideal transport:
programming succeeds and the first and last image bytes are in flash. -/
theorem programFlash_ideal_writes_image_witness :
    (ProgramFlashM gFour envI imgNine st0).1 = .ok ∧
    (ProgramFlashM gFour envI imgNine st0).2.flash 0 = 10 ∧
    (ProgramFlashM gFour envI imgNine st0).2.flash 8 = 18 :=
  ⟨(programFlash_ideal_writes_image gFour envI idealEnvI (by decide)
      (by decide) (by decide) ⟨4, rfl⟩ (by decide) imgNine (by decide)
      (by decide) (by decide) st0).1,
   ((programFlash_ideal_writes_image gFour envI idealEnvI (by decide)
      (by decide) (by decide) ⟨4, rfl⟩ (by decide) imgNine (by decide)
      (by decide) (by decide) st0).2 0 (by decide)).trans (by decide),
   ((programFlash_ideal_writes_image gFour envI idealEnvI (by decide)
      (by decide) (by decide) ⟨4, rfl⟩ (by decide) imgNine (by decide)
      (by decide) (by decide) st0).2 8 (by decide)).trans (by decide)⟩

/-- The error status of an injected fault is never `FT4222_OK`. -/
theorem errOf_ne_ok (e : TErr) : errOf (some e) ≠ FTStatus.ok := by
  cases e <;> simp [errOf]

/-- Weakening the starting call index of an abort outcome. -/
theorem abortOutcome_mono (k0 : Nat) (e : TErr) (k1 k1' k2 : Nat)
    (st : FTStatus) (h : AbortOutcome k0 e k1' k2 st) (hle : k1 ≤ k1') :
    AbortOutcome k0 e k1 k2 st := by
  rcases h with ⟨h1, h2⟩ | hr
  · exact Or.inl ⟨le_trans hle h1, h2⟩
  · exact Or.inr hr

/-- On a fault-free transport whose status register always reports busy,
the polling loop exhausts its budget and times out. -/
theorem waitLoop_busy_all (env : Env) (hf : ∀ k, env.fault k = none)
    (hb : ∀ k, env.statusByte k &&& 0x01 = 0x01) (n : Nat) (s : St) :
    waitLoop env n s
      = (.timeOutError, ⟨s.flash, s.k + 2 * n, s.trace ++ pollEvsN n⟩) :=
  (waitLoop_spec env hf n s).1 (fun i _ h => by
    have hbb := hb (s.k + 2 * i + 1)
    rw [Nat.and_one_is_mod] at h hbb
    omega)

/-- The polling loop propagates the first injected transport fault: it
either stops before issuing the faulting call or issues it last and returns
its error. -/
theorem waitLoop_abort (env : Env) (k0 : Nat) (e : TErr)
    (hf : env.fault k0 = some e) :
    ∀ n s, (∀ j, s.k ≤ j → j < k0 → env.fault j = none) → s.k ≤ k0 →
      AbortOutcome k0 e s.k (waitLoop env n s).2.k (waitLoop env n s).1 := by
  intro n
  induction n with
  | zero =>
    intro s _ hk
    exact Or.inl ⟨le_rfl, hk⟩
  | succ n ih =>
    intro s hpre hk
    by_cases h0 : s.k = k0
    · subst h0
      refine Or.inr ⟨?_, ?_⟩ <;>
        cases e <;> simp [waitLoop, writeSPIm, hf, errOf]
    · have hn0 : env.fault s.k = none := hpre s.k le_rfl (by omega)
      by_cases h1 : s.k + 1 = k0
      · have hf1 : env.fault (s.k + 1) = some e := by rw [h1]; exact hf
        refine Or.inr ⟨?_, ?_⟩ <;>
          cases e <;>
            simp [waitLoop, writeSPIm, readStatusM, hn0, hf1, errOf] <;>
          omega
      · have hn1 : env.fault (s.k + 1) = none :=
          hpre (s.k + 1) (by omega) (by omega)
        by_cases hrdy : env.statusByte (s.k + 1) &&& 0x01 = 0x00
        · have hstep : waitLoop env (n + 1) s
              = (.ok, ⟨s.flash, s.k + 1 + 1,
                  s.trace
                    ++ [.wr [ReadStatusRegisterCmd] 1 false, .rd 1 true]⟩) := by
            simp [waitLoop, writeSPIm, readStatusM, hn0, hn1, errOf, hrdy]
          rw [hstep]
          exact Or.inl ⟨show s.k ≤ s.k + 1 + 1 by omega,
            show s.k + 1 + 1 ≤ k0 by omega⟩
        · have hstep : waitLoop env (n + 1) s
              = waitLoop env n
                  ⟨s.flash, s.k + 1 + 1,
                    s.trace
                      ++ [.wr [ReadStatusRegisterCmd] 1 false, .rd 1 true]⟩ := by
            simp [waitLoop, writeSPIm, readStatusM, hn0, hn1, errOf]
            intro hc
            rw [Nat.and_one_is_mod] at hrdy
            exact absurd hc hrdy
          rw [hstep]
          refine abortOutcome_mono k0 e s.k (s.k + 1 + 1) _ _
            (ih ⟨s.flash, s.k + 1 + 1,
                  s.trace
                    ++ [.wr [ReadStatusRegisterCmd] 1 false, .rd 1 true]⟩ ?_ ?_)
            (by omega)
          · intro j hj1 hj2
            have hj1x : s.k + 1 + 1 ≤ j := hj1
            exact hpre j (by omega) hj2
          · show s.k + 1 + 1 ≤ k0
            omega

/-- `EraseSector` propagates the first injected transport fault. -/
theorem eraseSector_abort (g : Geom) (env : Env) (k0 : Nat) (e : TErr)
    (hf : env.fault k0 = some e) (i : Nat) (s : St)
    (hpre : ∀ j, s.k ≤ j → j < k0 → env.fault j = none) (hk : s.k ≤ k0) :
    AbortOutcome k0 e s.k (EraseSectorM g env i s).2.k
      (EraseSectorM g env i s).1 := by
  by_cases h0 : s.k = k0
  · subst h0
    refine Or.inr ⟨?_, ?_⟩ <;>
      cases e <;> simp [EraseSectorM, WriteEnableFlashM, writeSPIm, hf, errOf]
  · have hn0 : env.fault s.k = none := hpre s.k le_rfl (by omega)
    by_cases h1 : s.k + 1 = k0
    · have hf1 : env.fault (s.k + 1) = some e := by rw [h1]; exact hf
      refine Or.inr ⟨?_, ?_⟩ <;>
        cases e <;>
          simp [EraseSectorM, WriteEnableFlashM, writeSPIm, hn0, hf1, errOf] <;>
        omega
    · have hn1 : env.fault (s.k + 1) = none :=
        hpre (s.k + 1) (by omega) (by omega)
      simp only [EraseSectorM, WriteEnableFlashM, writeSPIm, hn0, hn1, errOf]
      rw [WaitForFlashReadyM]
      refine abortOutcome_mono k0 e s.k _ _ _
        (waitLoop_abort env k0 e hf g.maxWaitTimeMs _ ?_ ?_) ?_
      · intro j hj1 hj2
        have hj1x : s.k + 1 + 1 ≤ j := hj1
        exact hpre j (by omega) hj2
      · show s.k + 1 + 1 ≤ k0
        omega
      · show s.k ≤ s.k + 1 + 1
        omega

/-- `PageProgramFlash` propagates the first injected transport fault. -/
theorem pageProgram_abort (g : Geom) (env : Env) (k0 : Nat) (e : TErr)
    (hf : env.fault k0 = some e) (p : Nat) (wb : List Nat) (s : St)
    (hpre : ∀ j, s.k ≤ j → j < k0 → env.fault j = none) (hk : s.k ≤ k0) :
    AbortOutcome k0 e s.k (PageProgramFlashM g env p wb s).2.k
      (PageProgramFlashM g env p wb s).1 := by
  by_cases h0 : s.k = k0
  · subst h0
    refine Or.inr ⟨?_, ?_⟩ <;>
      cases e <;>
        simp [PageProgramFlashM, WriteEnableFlashM, writeSPIm, hf, errOf]
  · have hn0 : env.fault s.k = none := hpre s.k le_rfl (by omega)
    by_cases h1 : s.k + 1 = k0
    · have hf1 : env.fault (s.k + 1) = some e := by rw [h1]; exact hf
      refine Or.inr ⟨?_, ?_⟩ <;>
        cases e <;>
          simp [PageProgramFlashM, WriteEnableFlashM, writeSPIm, hn0, hf1,
            errOf] <;>
        omega
    · have hn1 : env.fault (s.k + 1) = none :=
        hpre (s.k + 1) (by omega) (by omega)
      by_cases h2 : s.k + 1 + 1 = k0
      · have hf2 : env.fault (s.k + 1 + 1) = some e := by rw [h2]; exact hf
        refine Or.inr ⟨?_, ?_⟩ <;>
          cases e <;>
            simp [PageProgramFlashM, WriteEnableFlashM, writeSPIm, hn0, hn1,
              hf2, errOf] <;>
          omega
      · have hn2 : env.fault (s.k + 1 + 1) = none :=
          hpre (s.k + 1 + 1) (by omega) (by omega)
        simp only [PageProgramFlashM, WriteEnableFlashM, writeSPIm, hn0, hn1,
          hn2, errOf]
        rw [WaitForFlashReadyM]
        refine abortOutcome_mono k0 e s.k _ _ _
          (waitLoop_abort env k0 e hf g.maxWaitTimeMs _ ?_ ?_) ?_
        · intro j hj1 hj2
          have hj1x : s.k + 1 + 1 + 1 ≤ j := hj1
          exact hpre j (by omega) hj2
        · show s.k + 1 + 1 + 1 ≤ k0
          omega
        · show s.k ≤ s.k + 1 + 1 + 1
          omega

/-- `ReadSectorFlash` propagates the first injected transport fault. -/
theorem readSector_abort (g : Geom) (env : Env) (k0 : Nat) (e : TErr)
    (hf : env.fault k0 = some e) (i : Nat) (s : St)
    (hpre : ∀ j, s.k ≤ j → j < k0 → env.fault j = none) (hk : s.k ≤ k0) :
    AbortOutcome k0 e s.k (ReadSectorFlashM g env i s).2.2.k
      (ReadSectorFlashM g env i s).1 := by
  by_cases h0 : s.k = k0
  · subst h0
    refine Or.inr ⟨?_, ?_⟩ <;>
      cases e <;> simp [ReadSectorFlashM, writeSPIm, hf, errOf]
  · have hn0 : env.fault s.k = none := hpre s.k le_rfl (by omega)
    by_cases h1 : s.k + 1 = k0
    · have hf1 : env.fault (s.k + 1) = some e := by rw [h1]; exact hf
      refine Or.inr ⟨?_, ?_⟩ <;>
        cases e <;>
          simp [ReadSectorFlashM, writeSPIm, readFlashM, hn0, hf1, errOf] <;>
        omega
    · have hn1 : env.fault (s.k + 1) = none :=
        hpre (s.k + 1) (by omega) (by omega)
      refine Or.inl ⟨?_, ?_⟩ <;>
        simp [ReadSectorFlashM, writeSPIm, readFlashM, hn0, hn1, errOf] <;>
      omega

/-- The page loop of `SectorProgramFlash` propagates the first injected
transport fault. -/
theorem pagesLoop_abort (g : Geom) (env : Env) (k0 : Nat) (e : TErr)
    (hf : env.fault k0 = some e) (psi : Nat) (sb : List Nat) (pc : Nat) :
    ∀ rem s, (∀ j, s.k ≤ j → j < k0 → env.fault j = none) → s.k ≤ k0 →
      AbortOutcome k0 e s.k (pagesLoop g env psi sb pc rem s).2.k
        (pagesLoop g env psi sb pc rem s).1 := by
  intro rem
  induction rem with
  | zero =>
    intro s _ hk
    exact Or.inl ⟨le_rfl, hk⟩
  | succ rem ih =>
    intro s hpre hk
    have hpp := pageProgram_abort g env k0 e hf (psi + (pc - (rem + 1)))
      (pageChunk g sb pc (pc - (rem + 1))) s hpre hk
    obtain ⟨⟨st, s1⟩, hps⟩ : ∃ r, PageProgramFlashM g env
        (psi + (pc - (rem + 1))) (pageChunk g sb pc (pc - (rem + 1))) s = r :=
      ⟨_, rfl⟩
    rw [hps] at hpp
    cases st with
    | ok =>
      rcases hpp with ⟨hm1, hm2⟩ | ⟨hr1, _⟩
      · have hm1x : s.k ≤ s1.k := hm1
        have hm2x : s1.k ≤ k0 := hm2
        simp only [pagesLoop, hps]
        refine abortOutcome_mono k0 e s.k _ _ _ (ih s1 ?_ ?_) ?_
        · intro j hj1 hj2
          exact hpre j (by omega) hj2
        · exact hm2x
        · exact hm1x
      · have hr1x : FTStatus.ok = errOf (some e) := hr1
        exact absurd hr1x.symm (errOf_ne_ok e)
    | devError c =>
      simp only [pagesLoop, hps]
      exact hpp
    | incorrectTransferSize =>
      simp only [pagesLoop, hps]
      exact hpp
    | timeOutError =>
      simp only [pagesLoop, hps]
      exact hpp
    | corruptedUpload =>
      simp only [pagesLoop, hps]
      exact hpp

/-- `SectorProgramFlash` propagates the first injected transport fault. -/
theorem sectorProgram_abort (g : Geom) (env : Env) (k0 : Nat) (e : TErr)
    (hf : env.fault k0 = some e) (i : Nat) (sb : List Nat) (s : St)
    (hpre : ∀ j, s.k ≤ j → j < k0 → env.fault j = none) (hk : s.k ≤ k0) :
    AbortOutcome k0 e s.k (SectorProgramFlashM g env i sb s).2.k
      (SectorProgramFlashM g env i sb s).1 := by
  have hSP : SectorProgramFlashM g env i sb s
      = pagesLoop g env (i * (g.sectorSize / g.pageSize)) sb
          (pageCountModel g sb.length) (pageCountModel g sb.length) s := rfl
  rw [hSP]
  exact pagesLoop_abort g env k0 e hf (i * (g.sectorSize / g.pageSize)) sb
    (pageCountModel g sb.length) (pageCountModel g sb.length) s hpre hk

/-- The per-sector retry loop of `ProgramFlash` propagates the first
injected transport fault: the faulted transaction is never re-run. -/
theorem sectorAttempts_abort (g : Geom) (env : Env) (k0 : Nat) (e : TErr)
    (hf : env.fault k0 = some e) (i : Nat) (sb : List Nat) (bt : Nat) :
    ∀ rem s, (∀ j, s.k ≤ j → j < k0 → env.fault j = none) → s.k ≤ k0 →
      AbortOutcome k0 e s.k (sectorAttempts g env i sb bt rem s).2.k
        (sectorAttempts g env i sb bt rem s).1 := by
  intro rem
  induction rem with
  | zero =>
    intro s _ hk
    exact Or.inl ⟨le_rfl, hk⟩
  | succ rem ih =>
    intro s hpre hk
    have hsp := sectorProgram_abort g env k0 e hf i sb s hpre hk
    obtain ⟨⟨st, s1⟩, hps⟩ : ∃ r, SectorProgramFlashM g env i sb s = r :=
      ⟨_, rfl⟩
    rw [hps] at hsp
    cases st with
    | ok =>
      rcases hsp with ⟨ha1, ha2⟩ | ⟨hr1, _⟩
      · have ha1x : s.k ≤ s1.k := ha1
        have ha2x : s1.k ≤ k0 := ha2
        have hpre1 : ∀ j, s1.k ≤ j → j < k0 → env.fault j = none :=
          fun j hj1 hj2 => hpre j (by omega) hj2
        have hrd0 := readSector_abort g env k0 e hf i s1 hpre1 ha2x
        obtain ⟨⟨st2, rb, s2⟩, hrd⟩ : ∃ r, ReadSectorFlashM g env i s1 = r :=
          ⟨_, rfl⟩
        rw [hrd] at hrd0
        cases st2 with
        | ok =>
          rcases hrd0 with ⟨hb1, hb2⟩ | ⟨hq1, _⟩
          · have hb1x : s1.k ≤ s2.k := hb1
            have hb2x : s2.k ≤ k0 := hb2
            have hpre2 : ∀ j, s2.k ≤ j → j < k0 → env.fault j = none :=
              fun j hj1 hj2 => hpre j (by omega) hj2
            by_cases hcm : countMismatch rb sb bt > 0
            · have her0 := eraseSector_abort g env k0 e hf i s2 hpre2 hb2x
              obtain ⟨⟨st3, s3⟩, her⟩ : ∃ r, EraseSectorM g env i s2 = r :=
                ⟨_, rfl⟩
              rw [her] at her0
              cases st3 with
              | ok =>
                rcases her0 with ⟨hc1, hc2⟩ | ⟨hw1, _⟩
                · have hc1x : s2.k ≤ s3.k := hc1
                  have hc2x : s3.k ≤ k0 := hc2
                  simp only [sectorAttempts, hps, hrd, her]
                  rw [if_pos hcm]
                  by_cases hrem : rem = 0
                  · subst hrem
                    rw [if_pos rfl]
                    exact Or.inl ⟨show s.k ≤ s3.k by omega,
                      show s3.k ≤ k0 by omega⟩
                  · rw [if_neg hrem]
                    refine abortOutcome_mono k0 e s.k _ _ _
                      (ih s3 ?_ ?_) ?_
                    · intro j hj1 hj2
                      exact hpre j (by omega) hj2
                    · exact hc2x
                    · show s.k ≤ s3.k
                      omega
                · have hw1x : FTStatus.ok = errOf (some e) := hw1
                  exact absurd hw1x.symm (errOf_ne_ok e)
              | devError c =>
                simp only [sectorAttempts, hps, hrd, her]
                rw [if_pos hcm]
                exact abortOutcome_mono k0 e s.k _ _ _ her0
                  (le_trans ha1x hb1x)
              | incorrectTransferSize =>
                simp only [sectorAttempts, hps, hrd, her]
                rw [if_pos hcm]
                exact abortOutcome_mono k0 e s.k _ _ _ her0
                  (le_trans ha1x hb1x)
              | timeOutError =>
                simp only [sectorAttempts, hps, hrd, her]
                rw [if_pos hcm]
                exact abortOutcome_mono k0 e s.k _ _ _ her0
                  (le_trans ha1x hb1x)
              | corruptedUpload =>
                simp only [sectorAttempts, hps, hrd, her]
                rw [if_pos hcm]
                exact abortOutcome_mono k0 e s.k _ _ _ her0
                  (le_trans ha1x hb1x)
            · simp only [sectorAttempts, hps, hrd]
              rw [if_neg hcm]
              by_cases hrem : rem = 0
              · subst hrem
                rw [if_pos rfl]
                exact Or.inl ⟨show s.k ≤ s2.k by omega,
                  show s2.k ≤ k0 by omega⟩
              · rw [if_neg hrem]
                exact Or.inl ⟨show s.k ≤ s2.k by omega,
                  show s2.k ≤ k0 by omega⟩
          · have hq1x : FTStatus.ok = errOf (some e) := hq1
            exact absurd hq1x.symm (errOf_ne_ok e)
        | devError c =>
          simp only [sectorAttempts, hps, hrd]
          exact abortOutcome_mono k0 e s.k _ _ _ hrd0 ha1x
        | incorrectTransferSize =>
          simp only [sectorAttempts, hps, hrd]
          exact abortOutcome_mono k0 e s.k _ _ _ hrd0 ha1x
        | timeOutError =>
          simp only [sectorAttempts, hps, hrd]
          exact abortOutcome_mono k0 e s.k _ _ _ hrd0 ha1x
        | corruptedUpload =>
          simp only [sectorAttempts, hps, hrd]
          exact abortOutcome_mono k0 e s.k _ _ _ hrd0 ha1x
      · have hr1x : FTStatus.ok = errOf (some e) := hr1
        exact absurd hr1x.symm (errOf_ne_ok e)
    | devError c =>
      simp only [sectorAttempts, hps]
      exact hsp
    | incorrectTransferSize =>
      simp only [sectorAttempts, hps]
      exact hsp
    | timeOutError =>
      simp only [sectorAttempts, hps]
      exact hsp
    | corruptedUpload =>
      simp only [sectorAttempts, hps]
      exact hsp

/-- The sector loop of `ProgramFlash` propagates the first injected
transport fault. -/
theorem sectorsLoop_abort (g : Geom) (env : Env) (k0 : Nat) (e : TErr)
    (hf : env.fault k0 = some e) (fb : List Nat) (sc : Nat) :
    ∀ rem bp s, (∀ j, s.k ≤ j → j < k0 → env.fault j = none) → s.k ≤ k0 →
      AbortOutcome k0 e s.k (sectorsLoop g env fb sc rem bp s).2.k
        (sectorsLoop g env fb sc rem bp s).1 := by
  intro rem
  induction rem with
  | zero =>
    intro bp s _ hk
    exact Or.inl ⟨le_rfl, hk⟩
  | succ rem ih =>
    intro bp s hpre hk
    have hsa0 := sectorAttempts_abort g env k0 e hf (sc - (rem + 1))
      (sectorWindow g fb sc bp (sc - (rem + 1)))
      (bytesToTransmitModel g fb sc (sc - (rem + 1)))
      g.maxSectorProgramAttempts s hpre hk
    obtain ⟨⟨st, s1⟩, hsa⟩ : ∃ r, sectorAttempts g env (sc - (rem + 1))
        (sectorWindow g fb sc bp (sc - (rem + 1)))
        (bytesToTransmitModel g fb sc (sc - (rem + 1)))
        g.maxSectorProgramAttempts s = r := ⟨_, rfl⟩
    rw [hsa] at hsa0
    cases st with
    | ok =>
      rcases hsa0 with ⟨ha1, ha2⟩ | ⟨hr1, _⟩
      · have ha1x : s.k ≤ s1.k := ha1
        have ha2x : s1.k ≤ k0 := ha2
        simp only [sectorsLoop, hsa]
        refine abortOutcome_mono k0 e s.k _ _ _
          (ih (bp + g.sectorSize) s1 ?_ ?_) ?_
        · intro j hj1 hj2
          exact hpre j (by omega) hj2
        · exact ha2x
        · exact ha1x
      · have hr1x : FTStatus.ok = errOf (some e) := hr1
        exact absurd hr1x.symm (errOf_ne_ok e)
    | devError c =>
      simp only [sectorsLoop, hsa]
      exact hsa0
    | incorrectTransferSize =>
      simp only [sectorsLoop, hsa]
      exact hsa0
    | timeOutError =>
      simp only [sectorsLoop, hsa]
      exact hsa0
    | corruptedUpload =>
      simp only [sectorsLoop, hsa]
      exact hsa0

/-- `ProgramFlash` propagates the first injected transport fault. -/
theorem programFlash_abort (g : Geom) (env : Env) (k0 : Nat) (e : TErr)
    (hf : env.fault k0 = some e) (fb : List Nat) (s : St)
    (hpre : ∀ j, s.k ≤ j → j < k0 → env.fault j = none) (hk : s.k ≤ k0) :
    AbortOutcome k0 e s.k (ProgramFlashM g env fb s).2.k
      (ProgramFlashM g env fb s).1 := by
  have hPF : ProgramFlashM g env fb s
      = sectorsLoop g env fb (sectorCountModel g.sectorSize fb.length)
          (sectorCountModel g.sectorSize fb.length) 0 s := rfl
  rw [hPF]
  exact sectorsLoop_abort g env k0 e hf fb
    (sectorCountModel g.sectorSize fb.length)
    (sectorCountModel g.sectorSize fb.length) 0 s hpre hk

/-- The read loop of `ValidateFlash` propagates the first injected
transport fault. -/
theorem validateChunks_abort (g : Geom) (env : Env) (k0 : Nat) (e : TErr)
    (hf : env.fault k0 = some e) (len n : Nat) :
    ∀ rem pointer acc s, (∀ j, s.k ≤ j → j < k0 → env.fault j = none) →
      s.k ≤ k0 →
      AbortOutcome k0 e s.k
        (validateChunks g env len n rem pointer acc s).2.2.k
        (validateChunks g env len n rem pointer acc s).1 := by
  intro rem
  induction rem with
  | zero =>
    intro pointer acc s _ hk
    exact Or.inl ⟨le_rfl, hk⟩
  | succ rem ih =>
    intro pointer acc s hpre hk
    by_cases h0 : s.k = k0
    · subst h0
      refine Or.inr ⟨?_, ?_⟩ <;>
        cases e <;> simp [validateChunks, writeSPIm, hf, errOf]
    · have hn0 : env.fault s.k = none := hpre s.k le_rfl (by omega)
      by_cases h1 : s.k + 1 = k0
      · have hf1 : env.fault (s.k + 1) = some e := by rw [h1]; exact hf
        refine Or.inr ⟨?_, ?_⟩ <;>
          cases e <;>
            simp [validateChunks, writeSPIm, readFlashM, hn0, hf1, errOf] <;>
          omega
      · have hn1 : env.fault (s.k + 1) = none :=
          hpre (s.k + 1) (by omega) (by omega)
        simp only [validateChunks, writeSPIm, readFlashM, hn0, hn1, errOf]
        refine abortOutcome_mono k0 e s.k _ _ _
          (ih (pointer + g.maxReadSize) _ _ ?_ ?_) ?_
        · intro j hj1 hj2
          have hj1x : s.k + 1 + 1 ≤ j := hj1
          exact hpre j (by omega) hj2
        · show s.k + 1 + 1 ≤ k0
          omega
        · show s.k ≤ s.k + 1 + 1
          omega

/-- `ValidateFlash` propagates the first injected transport fault (the
final byte-for-byte comparison issues no SPI calls). -/
theorem validateFlash_abort (g : Geom) (env : Env) (k0 : Nat) (e : TErr)
    (hf : env.fault k0 = some e) (fb : List Nat) (s : St)
    (hpre : ∀ j, s.k ≤ j → j < k0 → env.fault j = none) (hk : s.k ≤ k0) :
    AbortOutcome k0 e s.k (ValidateFlashM g env fb s).2.k
      (ValidateFlashM g env fb s).1 := by
  have hvc0 := validateChunks_abort g env k0 e hf fb.length
    (chunkCountModel g fb.length) (chunkCountModel g fb.length) 0 [] s hpre hk
  obtain ⟨⟨st, rb, s1⟩, hvc⟩ : ∃ r, validateChunks g env fb.length
      (chunkCountModel g fb.length) (chunkCountModel g fb.length) 0 [] s = r :=
    ⟨_, rfl⟩
  rw [hvc] at hvc0
  cases st with
  | ok =>
    rcases hvc0 with ⟨ha1, ha2⟩ | ⟨hr1, _⟩
    · have ha1x : s.k ≤ s1.k := ha1
      have ha2x : s1.k ≤ k0 := ha2
      simp only [ValidateFlashM, hvc]
      by_cases hcm : countMismatch rb fb fb.length > 0
      · rw [if_pos hcm]
        exact Or.inl ⟨ha1x, ha2x⟩
      · rw [if_neg hcm]
        exact Or.inl ⟨ha1x, ha2x⟩
    · have hr1x : FTStatus.ok = errOf (some e) := hr1
      exact absurd hr1x.symm (errOf_ne_ok e)
  | devError c =>
    simp only [ValidateFlashM, hvc]
    exact hvc0
  | incorrectTransferSize =>
    simp only [ValidateFlashM, hvc]
    exact hvc0
  | timeOutError =>
    simp only [ValidateFlashM, hvc]
    exact hvc0
  | corruptedUpload =>
    simp only [ValidateFlashM, hvc]
    exact hvc0

/-- On a busy device the first page-program operation times out after its
3 transmit calls and the full poll budget, and that timeout is the
operation's result: no SPI call follows the failed busy-wait. -/
theorem pageProgram_timeout (g : Geom) (env : Env) (hB : AlwaysBusy env)
    (p : Nat) (wb : List Nat) (s : St) :
    (PageProgramFlashM g env p wb s).1 = .timeOutError ∧
    (PageProgramFlashM g env p wb s).2.k
      = s.k + 3 + 2 * g.maxWaitTimeMs := by
  obtain ⟨hfree, hbusy⟩ := hB
  simp only [PageProgramFlashM, WriteEnableFlashM, writeSPIm, hfree, errOf]
  rw [WaitForFlashReadyM, waitLoop_busy_all env hfree hbusy]
  refine ⟨rfl, ?_⟩
  simp only [applyProgram]

/-- On a busy device `SectorProgramFlash` (non-empty buffer) returns the
timeout of its first page unchanged, issuing no further SPI calls and
starting no further page. -/
theorem sectorProgram_timeout (g : Geom) (env : Env) (hB : AlwaysBusy env)
    (hP : 0 < g.pageSize) (hdvd : g.pageSize ∣ g.sectorSize)
    (i : Nat) (sb : List Nat) (h1 : 1 ≤ sb.length)
    (hle : sb.length ≤ g.sectorSize) (s : St) :
    (SectorProgramFlashM g env i sb s).1 = .timeOutError ∧
    (SectorProgramFlashM g env i sb s).2.k
      = s.k + 3 + 2 * g.maxWaitTimeMs := by
  obtain ⟨m, hm⟩ : ∃ m, pageCountModel g sb.length = m + 1 :=
    ⟨(sb.length - 1) / g.pageSize,
      by rw [pageCountModel_eq g sb.length h1 hle hP hdvd]; omega⟩
  have hSP : SectorProgramFlashM g env i sb s
      = pagesLoop g env (i * (g.sectorSize / g.pageSize)) sb
          (pageCountModel g sb.length) (pageCountModel g sb.length) s := rfl
  rw [hSP, hm]
  have hpt := pageProgram_timeout g env hB
    (i * (g.sectorSize / g.pageSize) + (m + 1 - (m + 1)))
    (pageChunk g sb (m + 1) (m + 1 - (m + 1))) s
  obtain ⟨⟨st, s1⟩, hps⟩ : ∃ r, PageProgramFlashM g env
      (i * (g.sectorSize / g.pageSize) + (m + 1 - (m + 1)))
      (pageChunk g sb (m + 1) (m + 1 - (m + 1))) s = r := ⟨_, rfl⟩
  rw [hps] at hpt
  have hst : st = .timeOutError := hpt.1
  subst hst
  simp only [pagesLoop, hps]
  exact ⟨trivial, hpt.2⟩

/-- On a busy device `ProgramFlash` (non-empty image) returns the timeout
of the very first page of the very first sector unchanged: no retry, no
further sector, no SPI call after the failed busy-wait. -/
theorem programFlash_timeout (g : Geom) (env : Env) (hB : AlwaysBusy env)
    (hP : 0 < g.pageSize) (hS : 0 < g.sectorSize)
    (hdvd : g.pageSize ∣ g.sectorSize) (hA1 : 1 ≤ g.maxSectorProgramAttempts)
    (fb : List Nat) (h1 : 1 ≤ fb.length) (h64 : fb.length < 2 ^ 64) (s : St) :
    (ProgramFlashM g env fb s).1 = .timeOutError ∧
    (ProgramFlashM g env fb s).2.k = s.k + 3 + 2 * g.maxWaitTimeMs := by
  have hsceq := sectorCountModel_eq g.sectorSize fb.length h1 h64
  obtain ⟨m, hm⟩ : ∃ m, sectorCountModel g.sectorSize fb.length = m + 1 :=
    ⟨(fb.length - 1) / g.sectorSize, by rw [hsceq]; omega⟩
  obtain ⟨a, ha⟩ : ∃ a, g.maxSectorProgramAttempts = a + 1 :=
    ⟨g.maxSectorProgramAttempts - 1, by omega⟩
  have hPF : ProgramFlashM g env fb s
      = sectorsLoop g env fb (sectorCountModel g.sectorSize fb.length)
          (sectorCountModel g.sectorSize fb.length) 0 s := rfl
  rw [hPF, hm]
  have hsc1 : m + 1 = 1 + (fb.length - 1) / g.sectorSize := by
    rw [← hm]; exact hsceq
  obtain ⟨hw1, hwle, hwbt, hwgetd, hwmin⟩ :=
    windowFacts g fb (m + 1) 0 hS h1 hsc1 (by omega)
  rw [Nat.zero_mul] at hw1 hwle hwbt hwgetd hwmin
  simp only [sectorsLoop]
  rw [Nat.sub_self]
  rw [ha]
  have hspt := sectorProgram_timeout g env hB hP hdvd 0
    (sectorWindow g fb (m + 1) 0 0) hw1 hwle s
  obtain ⟨⟨st, s1⟩, hps⟩ : ∃ r, SectorProgramFlashM g env 0
      (sectorWindow g fb (m + 1) 0 0) s = r := ⟨_, rfl⟩
  rw [hps] at hspt
  have hst : st = .timeOutError := hspt.1
  subst hst
  simp only [sectorAttempts, hps]
  exact ⟨trivial, hspt.2⟩

/-- The error status of an injected fault is never the timeout status:
`FT4222_TIME_OUT_ERROR` originates only in `WaitForFlashReady`. -/
theorem errOf_ne_timeout (o : Option TErr) :
    errOf o ≠ FTStatus.timeOutError := by
  cases o with
  | none => simp [errOf]
  | some e => cases e <;> simp [errOf]

/-- If the polling loop returns the timeout status, it ran its whole
budget: exactly `n` busy polls (2 SPI calls each) and nothing else. -/
theorem waitLoop_timeoutProp (env : Env) :
    ∀ n s, (waitLoop env n s).1 = .timeOutError →
      (waitLoop env n s).2.trace = s.trace ++ pollEvsN n ∧
      (waitLoop env n s).2.k = s.k + 2 * n := by
  intro n
  induction n with
  | zero =>
    intro s _
    constructor
    · simp [waitLoop, pollEvsN]
    · simp [waitLoop]
  | succ n ih =>
    intro s ht
    cases hf0 : env.fault s.k with
    | some e =>
      exfalso
      have hx : (waitLoop env (n + 1) s).1 = errOf (some e) := by
        cases e <;> simp [waitLoop, writeSPIm, hf0, errOf]
      exact errOf_ne_timeout (some e) (hx.symm.trans ht)
    | none =>
      cases hf1 : env.fault (s.k + 1) with
      | some e =>
        exfalso
        have hx : (waitLoop env (n + 1) s).1 = errOf (some e) := by
          cases e <;>
            simp [waitLoop, writeSPIm, readStatusM, hf0, hf1, errOf]
        exact errOf_ne_timeout (some e) (hx.symm.trans ht)
      | none =>
        by_cases hrdy : env.statusByte (s.k + 1) &&& 0x01 = 0x00
        · exfalso
          have hx : (waitLoop env (n + 1) s).1 = .ok := by
            simp [waitLoop, writeSPIm, readStatusM, hf0, hf1, errOf, hrdy]
          exact absurd (hx.symm.trans ht) (by decide)
        · have hstep : waitLoop env (n + 1) s
              = waitLoop env n
                  ⟨s.flash, s.k + 1 + 1,
                    s.trace
                      ++ [.wr [ReadStatusRegisterCmd] 1 false, .rd 1 true]⟩ := by
            simp [waitLoop, writeSPIm, readStatusM, hf0, hf1, errOf]
            intro hc
            rw [Nat.and_one_is_mod] at hrdy
            exact absurd hc hrdy
          rw [hstep] at ht ⊢
          obtain ⟨h1, h2⟩ := ih _ ht
          constructor
          · rw [h1]
            show s.trace
                ++ [Ev.wr [ReadStatusRegisterCmd] 1 false, Ev.rd 1 true]
                ++ pollEvsN n = s.trace ++ pollEvsN (n + 1)
            simp [pollEvsN, pollEvs, List.append_assoc]
          · rw [h2]
            show s.k + 1 + 1 + 2 * n = s.k + 2 * (n + 1)
            omega

/-- Every run of the polling loop only appends SPI calls: the trace grows
by a suffix and the call counter by exactly its length. -/
theorem waitLoop_extends (env : Env) :
    ∀ n s, ∃ d, (waitLoop env n s).2.trace = s.trace ++ d ∧
      (waitLoop env n s).2.k = s.k + d.length := by
  intro n
  induction n with
  | zero =>
    intro s
    exact ⟨[], by simp [waitLoop], by simp [waitLoop]⟩
  | succ n ih =>
    intro s
    cases hf0 : env.fault s.k with
    | some e =>
      refine ⟨[.wr [ReadStatusRegisterCmd] 1 false], ?_, ?_⟩ <;>
        cases e <;> simp [waitLoop, writeSPIm, hf0, errOf]
    | none =>
      cases hf1 : env.fault (s.k + 1) with
      | some e =>
        refine ⟨[.wr [ReadStatusRegisterCmd] 1 false, .rd 1 true], ?_, ?_⟩ <;>
          cases e <;>
            simp [waitLoop, writeSPIm, readStatusM, hf0, hf1, errOf]
      | none =>
        by_cases hrdy : env.statusByte (s.k + 1) &&& 0x01 = 0x00
        · refine ⟨[.wr [ReadStatusRegisterCmd] 1 false, .rd 1 true], ?_, ?_⟩ <;>
            simp [waitLoop, writeSPIm, readStatusM, hf0, hf1, errOf, hrdy]
        · have hstep : waitLoop env (n + 1) s
              = waitLoop env n
                  ⟨s.flash, s.k + 1 + 1,
                    s.trace
                      ++ [.wr [ReadStatusRegisterCmd] 1 false, .rd 1 true]⟩ := by
            simp [waitLoop, writeSPIm, readStatusM, hf0, hf1, errOf]
            intro hc
            rw [Nat.and_one_is_mod] at hrdy
            exact absurd hc hrdy
          rw [hstep]
          obtain ⟨d, hd1, hd2⟩ := ih
            ⟨s.flash, s.k + 1 + 1,
              s.trace ++ [.wr [ReadStatusRegisterCmd] 1 false, .rd 1 true]⟩
          refine ⟨[.wr [ReadStatusRegisterCmd] 1 false, .rd 1 true] ++ d,
            ?_, ?_⟩
          · rw [hd1]
            show s.trace
                ++ [Ev.wr [ReadStatusRegisterCmd] 1 false, Ev.rd 1 true] ++ d
              = s.trace
                ++ ([Ev.wr [ReadStatusRegisterCmd] 1 false, Ev.rd 1 true] ++ d)
            simp [List.append_assoc]
          · rw [hd2]
            show s.k + 1 + 1 + d.length
              = s.k + ([Ev.wr [ReadStatusRegisterCmd] 1 false,
                  Ev.rd 1 true] ++ d).length
            simp [List.length_append]
            omega

/-- Chaining a busy-wait after a prefix of SPI calls preserves the
trace-extension form. -/
theorem extends_wait_after (env : Env) (W : Nat) (s R : St) (d0 : List Ev)
    (hR1 : R.trace = s.trace ++ d0) (hR2 : R.k = s.k + d0.length) :
    ∃ d, (waitLoop env W R).2.trace = s.trace ++ d ∧
      (waitLoop env W R).2.k = s.k + d.length := by
  obtain ⟨d, hd1, hd2⟩ := waitLoop_extends env W R
  refine ⟨d0 ++ d, ?_, ?_⟩
  · rw [hd1, hR1, List.append_assoc]
  · rw [hd2, hR2, List.length_append]
    omega

/-- Chaining a timed-out busy-wait after a prefix of SPI calls yields the
timeout-abort form: the failed poll budget ends the bus activity. -/
theorem timeout_wait_after (env : Env) (W : Nat) (s R : St) (d0 : List Ev)
    (hR1 : R.trace = s.trace ++ d0) (hR2 : R.k = s.k + d0.length)
    (ht : (waitLoop env W R).1 = .timeOutError) :
    ∃ pre, (waitLoop env W R).2.trace = s.trace ++ pre ++ pollEvsN W ∧
      (waitLoop env W R).2.k = s.k + pre.length + 2 * W := by
  obtain ⟨h1, h2⟩ := waitLoop_timeoutProp env W R ht
  refine ⟨d0, ?_, ?_⟩
  · rw [h1, hR1]
  · rw [h2, hR2]

/-- Every run of `EraseSector` only appends SPI calls. -/
theorem eraseSector_extends (g : Geom) (env : Env) (i : Nat) (s : St) :
    ∃ d, (EraseSectorM g env i s).2.trace = s.trace ++ d ∧
      (EraseSectorM g env i s).2.k = s.k + d.length := by
  cases hf0 : env.fault s.k with
  | some e =>
    refine ⟨[.wr [WriteEnableCmd] 1 true], ?_, ?_⟩ <;>
      cases e <;>
        simp [EraseSectorM, WriteEnableFlashM, writeSPIm, hf0, errOf]
  | none =>
    cases hf1 : env.fault (s.k + 1) with
    | some e =>
      refine ⟨[.wr [WriteEnableCmd] 1 true,
        .wr (SectorEraseCmd :: IntToByteVec (i * g.sectorSize))
          (SectorEraseCmd :: IntToByteVec (i * g.sectorSize)).length true],
        ?_, ?_⟩ <;>
        cases e <;>
          simp [EraseSectorM, WriteEnableFlashM, writeSPIm, hf0, hf1, errOf]
    | none =>
      simp only [EraseSectorM, WriteEnableFlashM, writeSPIm, hf0, hf1, errOf]
      rw [WaitForFlashReadyM]
      exact extends_wait_after env g.maxWaitTimeMs s _
        [.wr [WriteEnableCmd] 1 true,
         .wr (SectorEraseCmd :: IntToByteVec (i * g.sectorSize))
           (SectorEraseCmd :: IntToByteVec (i * g.sectorSize)).length true]
        (by simp [applyErase]) (by simp [applyErase])

/-- If `EraseSector` returns the timeout status, its bus activity ends with
the exhausted poll budget of its busy-wait. -/
theorem eraseSector_timeoutProp (g : Geom) (env : Env) (i : Nat) (s : St)
    (ht : (EraseSectorM g env i s).1 = .timeOutError) :
    ∃ pre, (EraseSectorM g env i s).2.trace
        = s.trace ++ pre ++ pollEvsN g.maxWaitTimeMs ∧
      (EraseSectorM g env i s).2.k
        = s.k + pre.length + 2 * g.maxWaitTimeMs := by
  cases hf0 : env.fault s.k with
  | some e =>
    exfalso
    have hx : (EraseSectorM g env i s).1 = errOf (some e) := by
      cases e <;>
        simp [EraseSectorM, WriteEnableFlashM, writeSPIm, hf0, errOf]
    exact errOf_ne_timeout (some e) (hx.symm.trans ht)
  | none =>
    cases hf1 : env.fault (s.k + 1) with
    | some e =>
      exfalso
      have hx : (EraseSectorM g env i s).1 = errOf (some e) := by
        cases e <;>
          simp [EraseSectorM, WriteEnableFlashM, writeSPIm, hf0, hf1, errOf]
      exact errOf_ne_timeout (some e) (hx.symm.trans ht)
    | none =>
      simp only [EraseSectorM, WriteEnableFlashM, writeSPIm, hf0, hf1,
        errOf] at ht ⊢
      rw [WaitForFlashReadyM] at ht ⊢
      exact timeout_wait_after env g.maxWaitTimeMs s _
        [.wr [WriteEnableCmd] 1 true,
         .wr (SectorEraseCmd :: IntToByteVec (i * g.sectorSize))
           (SectorEraseCmd :: IntToByteVec (i * g.sectorSize)).length true]
        (by simp [applyErase]) (by simp [applyErase]) ht

/-- Every run of `PageProgramFlash` only appends SPI calls. -/
theorem pageProgram_extends (g : Geom) (env : Env) (p : Nat)
    (wb : List Nat) (s : St) :
    ∃ d, (PageProgramFlashM g env p wb s).2.trace = s.trace ++ d ∧
      (PageProgramFlashM g env p wb s).2.k = s.k + d.length := by
  cases hf0 : env.fault s.k with
  | some e =>
    refine ⟨[.wr [WriteEnableCmd] 1 true], ?_, ?_⟩ <;>
      cases e <;>
        simp [PageProgramFlashM, WriteEnableFlashM, writeSPIm, hf0, errOf]
  | none =>
    cases hf1 : env.fault (s.k + 1) with
    | some e =>
      refine ⟨[.wr [WriteEnableCmd] 1 true,
        .wr (PageProgramCmd :: IntToByteVec (p * g.pageSize))
          (PageProgramCmd :: IntToByteVec (p * g.pageSize)).length false],
        ?_, ?_⟩ <;>
        cases e <;>
          simp [PageProgramFlashM, WriteEnableFlashM, writeSPIm, hf0, hf1,
            errOf]
    | none =>
      cases hf2 : env.fault (s.k + 1 + 1) with
      | some e =>
        refine ⟨[.wr [WriteEnableCmd] 1 true,
          .wr (PageProgramCmd :: IntToByteVec (p * g.pageSize))
            (PageProgramCmd :: IntToByteVec (p * g.pageSize)).length false,
          .wr wb g.pageSize true], ?_, ?_⟩ <;>
          cases e <;>
            simp [PageProgramFlashM, WriteEnableFlashM, writeSPIm, hf0, hf1,
              hf2, errOf]
      | none =>
        simp only [PageProgramFlashM, WriteEnableFlashM, writeSPIm, hf0,
          hf1, hf2, errOf]
        rw [WaitForFlashReadyM]
        exact extends_wait_after env g.maxWaitTimeMs s _
          [.wr [WriteEnableCmd] 1 true,
           .wr (PageProgramCmd :: IntToByteVec (p * g.pageSize))
             (PageProgramCmd :: IntToByteVec (p * g.pageSize)).length false,
           .wr wb g.pageSize true]
          (by simp [applyProgram]) (by simp [applyProgram])

/-- If `PageProgramFlash` returns the timeout status, its bus activity ends
with the exhausted poll budget of its busy-wait. -/
theorem pageProgram_timeoutProp (g : Geom) (env : Env) (p : Nat)
    (wb : List Nat) (s : St)
    (ht : (PageProgramFlashM g env p wb s).1 = .timeOutError) :
    ∃ pre, (PageProgramFlashM g env p wb s).2.trace
        = s.trace ++ pre ++ pollEvsN g.maxWaitTimeMs ∧
      (PageProgramFlashM g env p wb s).2.k
        = s.k + pre.length + 2 * g.maxWaitTimeMs := by
  cases hf0 : env.fault s.k with
  | some e =>
    exfalso
    have hx : (PageProgramFlashM g env p wb s).1 = errOf (some e) := by
      cases e <;>
        simp [PageProgramFlashM, WriteEnableFlashM, writeSPIm, hf0, errOf]
    exact errOf_ne_timeout (some e) (hx.symm.trans ht)
  | none =>
    cases hf1 : env.fault (s.k + 1) with
    | some e =>
      exfalso
      have hx : (PageProgramFlashM g env p wb s).1 = errOf (some e) := by
        cases e <;>
          simp [PageProgramFlashM, WriteEnableFlashM, writeSPIm, hf0, hf1,
            errOf]
      exact errOf_ne_timeout (some e) (hx.symm.trans ht)
    | none =>
      cases hf2 : env.fault (s.k + 1 + 1) with
      | some e =>
        exfalso
        have hx : (PageProgramFlashM g env p wb s).1 = errOf (some e) := by
          cases e <;>
            simp [PageProgramFlashM, WriteEnableFlashM, writeSPIm, hf0, hf1,
              hf2, errOf]
        exact errOf_ne_timeout (some e) (hx.symm.trans ht)
      | none =>
        simp only [PageProgramFlashM, WriteEnableFlashM, writeSPIm, hf0,
          hf1, hf2, errOf] at ht ⊢
        rw [WaitForFlashReadyM] at ht ⊢
        exact timeout_wait_after env g.maxWaitTimeMs s _
          [.wr [WriteEnableCmd] 1 true,
           .wr (PageProgramCmd :: IntToByteVec (p * g.pageSize))
             (PageProgramCmd :: IntToByteVec (p * g.pageSize)).length false,
           .wr wb g.pageSize true]
          (by simp [applyProgram]) (by simp [applyProgram]) ht

/-- Every run of `ReadSectorFlash` only appends SPI calls. -/
theorem readSector_extends (g : Geom) (env : Env) (i : Nat) (s : St) :
    ∃ d, (ReadSectorFlashM g env i s).2.2.trace = s.trace ++ d ∧
      (ReadSectorFlashM g env i s).2.2.k = s.k + d.length := by
  cases hf0 : env.fault s.k with
  | some e =>
    refine ⟨[.wr (ReadCmd :: IntToByteVec (i * g.sectorSize))
        (ReadCmd :: IntToByteVec (i * g.sectorSize)).length false],
      ?_, ?_⟩ <;>
      cases e <;> simp [ReadSectorFlashM, writeSPIm, hf0, errOf]
  | none =>
    refine ⟨[.wr (ReadCmd :: IntToByteVec (i * g.sectorSize))
        (ReadCmd :: IntToByteVec (i * g.sectorSize)).length false,
      .rd g.sectorSize true], ?_, ?_⟩ <;>
      simp [ReadSectorFlashM, writeSPIm, readFlashM, hf0, errOf]

/-- `ReadSectorFlash` contains no busy-wait and never returns the timeout
status. -/
theorem readSector_no_timeout (g : Geom) (env : Env) (i : Nat) (s : St) :
    (ReadSectorFlashM g env i s).1 ≠ .timeOutError := by
  intro ht
  cases hf0 : env.fault s.k with
  | some e =>
    have hx : (ReadSectorFlashM g env i s).1 = errOf (some e) := by
      cases e <;> simp [ReadSectorFlashM, writeSPIm, hf0, errOf]
    exact errOf_ne_timeout (some e) (hx.symm.trans ht)
  | none =>
    have hx : (ReadSectorFlashM g env i s).1
        = errOf (env.fault (s.k + 1)) := by
      simp [ReadSectorFlashM, writeSPIm, readFlashM, hf0, errOf]
    exact errOf_ne_timeout _ (hx.symm.trans ht)

/-- Every run of the page loop only appends SPI calls. -/
theorem pagesLoop_extends (g : Geom) (env : Env) (psi : Nat) (sb : List Nat)
    (pc : Nat) : ∀ rem s, ∃ d,
      (pagesLoop g env psi sb pc rem s).2.trace = s.trace ++ d ∧
      (pagesLoop g env psi sb pc rem s).2.k = s.k + d.length := by
  intro rem
  induction rem with
  | zero =>
    intro s
    exact ⟨[], by simp [pagesLoop], by simp [pagesLoop]⟩
  | succ rem ih =>
    intro s
    obtain ⟨d1, hd1, hd2⟩ := pageProgram_extends g env
      (psi + (pc - (rem + 1))) (pageChunk g sb pc (pc - (rem + 1))) s
    obtain ⟨⟨st, s1⟩, hps⟩ : ∃ r, PageProgramFlashM g env
        (psi + (pc - (rem + 1))) (pageChunk g sb pc (pc - (rem + 1))) s = r :=
      ⟨_, rfl⟩
    rw [hps] at hd1 hd2
    have hd1x : s1.trace = s.trace ++ d1 := hd1
    have hd2x : s1.k = s.k + d1.length := hd2
    cases st with
    | ok =>
      obtain ⟨d2, he1, he2⟩ := ih s1
      simp only [pagesLoop, hps]
      refine ⟨d1 ++ d2, ?_, ?_⟩
      · rw [he1, hd1x, List.append_assoc]
      · rw [he2, hd2x, List.length_append]
        omega
    | devError c =>
      simp only [pagesLoop, hps]
      exact ⟨d1, hd1x, hd2x⟩
    | incorrectTransferSize =>
      simp only [pagesLoop, hps]
      exact ⟨d1, hd1x, hd2x⟩
    | timeOutError =>
      simp only [pagesLoop, hps]
      exact ⟨d1, hd1x, hd2x⟩
    | corruptedUpload =>
      simp only [pagesLoop, hps]
      exact ⟨d1, hd1x, hd2x⟩

/-- If the page loop returns the timeout status, its bus activity ends
with the exhausted poll budget of the failed page's busy-wait, wherever in
the loop that page occurs. -/
theorem pagesLoop_timeoutProp (g : Geom) (env : Env) (psi : Nat)
    (sb : List Nat) (pc : Nat) : ∀ rem s,
      (pagesLoop g env psi sb pc rem s).1 = .timeOutError →
      ∃ pre, (pagesLoop g env psi sb pc rem s).2.trace
          = s.trace ++ pre ++ pollEvsN g.maxWaitTimeMs ∧
        (pagesLoop g env psi sb pc rem s).2.k
          = s.k + pre.length + 2 * g.maxWaitTimeMs := by
  intro rem
  induction rem with
  | zero =>
    intro s ht
    simp [pagesLoop] at ht
  | succ rem ih =>
    intro s ht
    obtain ⟨⟨st, s1⟩, hps⟩ : ∃ r, PageProgramFlashM g env
        (psi + (pc - (rem + 1))) (pageChunk g sb pc (pc - (rem + 1))) s = r :=
      ⟨_, rfl⟩
    cases st with
    | ok =>
      obtain ⟨d1, hd1, hd2⟩ := pageProgram_extends g env
        (psi + (pc - (rem + 1))) (pageChunk g sb pc (pc - (rem + 1))) s
      rw [hps] at hd1 hd2
      have hd1x : s1.trace = s.trace ++ d1 := hd1
      have hd2x : s1.k = s.k + d1.length := hd2
      simp only [pagesLoop, hps] at ht ⊢
      obtain ⟨pre, hp1, hp2⟩ := ih s1 ht
      refine ⟨d1 ++ pre, ?_, ?_⟩
      · rw [hp1, hd1x]
        simp [List.append_assoc]
      · rw [hp2, hd2x, List.length_append]
        omega
    | timeOutError =>
      have hppt := pageProgram_timeoutProp g env (psi + (pc - (rem + 1)))
        (pageChunk g sb pc (pc - (rem + 1))) s (by rw [hps])
      rw [hps] at hppt
      simp only [pagesLoop, hps]
      exact hppt
    | devError c =>
      simp [pagesLoop, hps] at ht
    | incorrectTransferSize =>
      simp [pagesLoop, hps] at ht
    | corruptedUpload =>
      simp [pagesLoop, hps] at ht

/-- Every run of `SectorProgramFlash` only appends SPI calls. -/
theorem sectorProgram_extends (g : Geom) (env : Env) (i : Nat)
    (sb : List Nat) (s : St) :
    ∃ d, (SectorProgramFlashM g env i sb s).2.trace = s.trace ++ d ∧
      (SectorProgramFlashM g env i sb s).2.k = s.k + d.length := by
  have hSP : SectorProgramFlashM g env i sb s
      = pagesLoop g env (i * (g.sectorSize / g.pageSize)) sb
          (pageCountModel g sb.length) (pageCountModel g sb.length) s := rfl
  rw [hSP]
  exact pagesLoop_extends g env (i * (g.sectorSize / g.pageSize)) sb
    (pageCountModel g sb.length) (pageCountModel g sb.length) s

/-- If `SectorProgramFlash` returns the timeout status, its bus activity
ends with the exhausted poll budget of the failed page's busy-wait. -/
theorem sectorProgram_timeoutProp (g : Geom) (env : Env) (i : Nat)
    (sb : List Nat) (s : St)
    (ht : (SectorProgramFlashM g env i sb s).1 = .timeOutError) :
    ∃ pre, (SectorProgramFlashM g env i sb s).2.trace
        = s.trace ++ pre ++ pollEvsN g.maxWaitTimeMs ∧
      (SectorProgramFlashM g env i sb s).2.k
        = s.k + pre.length + 2 * g.maxWaitTimeMs := by
  have hSP : SectorProgramFlashM g env i sb s
      = pagesLoop g env (i * (g.sectorSize / g.pageSize)) sb
          (pageCountModel g sb.length) (pageCountModel g sb.length) s := rfl
  rw [hSP] at ht ⊢
  exact pagesLoop_timeoutProp g env (i * (g.sectorSize / g.pageSize)) sb
    (pageCountModel g sb.length) (pageCountModel g sb.length) s ht

/-- Every run of the per-sector retry loop only appends SPI calls. -/
theorem sectorAttempts_extends (g : Geom) (env : Env) (i : Nat)
    (sb : List Nat) (bt : Nat) : ∀ rem s, ∃ d,
      (sectorAttempts g env i sb bt rem s).2.trace = s.trace ++ d ∧
      (sectorAttempts g env i sb bt rem s).2.k = s.k + d.length := by
  intro rem
  induction rem with
  | zero =>
    intro s
    exact ⟨[], by simp [sectorAttempts], by simp [sectorAttempts]⟩
  | succ rem ih =>
    intro s
    obtain ⟨d1, hd1, hd2⟩ := sectorProgram_extends g env i sb s
    obtain ⟨⟨st, s1⟩, hps⟩ : ∃ r, SectorProgramFlashM g env i sb s = r :=
      ⟨_, rfl⟩
    rw [hps] at hd1 hd2
    have hd1x : s1.trace = s.trace ++ d1 := hd1
    have hd2x : s1.k = s.k + d1.length := hd2
    cases st with
    | ok =>
      obtain ⟨d2, he1, he2⟩ := readSector_extends g env i s1
      obtain ⟨⟨st2, rb, s2⟩, hrd⟩ : ∃ r, ReadSectorFlashM g env i s1 = r :=
        ⟨_, rfl⟩
      rw [hrd] at he1 he2
      have he1x : s2.trace = s1.trace ++ d2 := he1
      have he2x : s2.k = s1.k + d2.length := he2
      cases st2 with
      | ok =>
        by_cases hcm : countMismatch rb sb bt > 0
        · obtain ⟨d3, hg1, hg2⟩ := eraseSector_extends g env i s2
          obtain ⟨⟨st3, s3⟩, her⟩ : ∃ r, EraseSectorM g env i s2 = r :=
            ⟨_, rfl⟩
          rw [her] at hg1 hg2
          have hg1x : s3.trace = s2.trace ++ d3 := hg1
          have hg2x : s3.k = s2.k + d3.length := hg2
          cases st3 with
          | ok =>
            by_cases hrem : rem = 0
            · subst hrem
              simp only [sectorAttempts, hps, hrd, her]
              rw [if_pos hcm]
              refine ⟨d1 ++ d2 ++ d3, ?_, ?_⟩
              · show s3.trace = s.trace ++ (d1 ++ d2 ++ d3)
                rw [hg1x, he1x, hd1x]
                simp [List.append_assoc]
              · show s3.k = s.k + (d1 ++ d2 ++ d3).length
                rw [hg2x, he2x, hd2x]
                simp only [List.length_append]
                omega
            · simp only [sectorAttempts, hps, hrd, her]
              rw [if_pos hcm, if_neg hrem]
              obtain ⟨d4, hh1, hh2⟩ := ih s3
              refine ⟨d1 ++ d2 ++ d3 ++ d4, ?_, ?_⟩
              · rw [hh1, hg1x, he1x, hd1x]
                simp [List.append_assoc]
              · rw [hh2, hg2x, he2x, hd2x]
                simp only [List.length_append]
                omega
          | devError c =>
            simp only [sectorAttempts, hps, hrd, her]
            rw [if_pos hcm]
            refine ⟨d1 ++ d2 ++ d3, ?_, ?_⟩
            · show s3.trace = s.trace ++ (d1 ++ d2 ++ d3)
              rw [hg1x, he1x, hd1x]
              simp [List.append_assoc]
            · show s3.k = s.k + (d1 ++ d2 ++ d3).length
              rw [hg2x, he2x, hd2x]
              simp only [List.length_append]
              omega
          | incorrectTransferSize =>
            simp only [sectorAttempts, hps, hrd, her]
            rw [if_pos hcm]
            refine ⟨d1 ++ d2 ++ d3, ?_, ?_⟩
            · show s3.trace = s.trace ++ (d1 ++ d2 ++ d3)
              rw [hg1x, he1x, hd1x]
              simp [List.append_assoc]
            · show s3.k = s.k + (d1 ++ d2 ++ d3).length
              rw [hg2x, he2x, hd2x]
              simp only [List.length_append]
              omega
          | timeOutError =>
            simp only [sectorAttempts, hps, hrd, her]
            rw [if_pos hcm]
            refine ⟨d1 ++ d2 ++ d3, ?_, ?_⟩
            · show s3.trace = s.trace ++ (d1 ++ d2 ++ d3)
              rw [hg1x, he1x, hd1x]
              simp [List.append_assoc]
            · show s3.k = s.k + (d1 ++ d2 ++ d3).length
              rw [hg2x, he2x, hd2x]
              simp only [List.length_append]
              omega
          | corruptedUpload =>
            simp only [sectorAttempts, hps, hrd, her]
            rw [if_pos hcm]
            refine ⟨d1 ++ d2 ++ d3, ?_, ?_⟩
            · show s3.trace = s.trace ++ (d1 ++ d2 ++ d3)
              rw [hg1x, he1x, hd1x]
              simp [List.append_assoc]
            · show s3.k = s.k + (d1 ++ d2 ++ d3).length
              rw [hg2x, he2x, hd2x]
              simp only [List.length_append]
              omega
        · by_cases hrem : rem = 0
          · subst hrem
            simp only [sectorAttempts, hps, hrd]
            rw [if_neg hcm]
            refine ⟨d1 ++ d2, ?_, ?_⟩
            · show s2.trace = s.trace ++ (d1 ++ d2)
              rw [he1x, hd1x]
              simp [List.append_assoc]
            · show s2.k = s.k + (d1 ++ d2).length
              rw [he2x, hd2x]
              simp only [List.length_append]
              omega
          · simp only [sectorAttempts, hps, hrd]
            rw [if_neg hcm, if_neg hrem]
            refine ⟨d1 ++ d2, ?_, ?_⟩
            · show s2.trace = s.trace ++ (d1 ++ d2)
              rw [he1x, hd1x]
              simp [List.append_assoc]
            · show s2.k = s.k + (d1 ++ d2).length
              rw [he2x, hd2x]
              simp only [List.length_append]
              omega
      | devError c =>
        simp only [sectorAttempts, hps, hrd]
        refine ⟨d1 ++ d2, ?_, ?_⟩
        · show s2.trace = s.trace ++ (d1 ++ d2)
          rw [he1x, hd1x]
          simp [List.append_assoc]
        · show s2.k = s.k + (d1 ++ d2).length
          rw [he2x, hd2x]
          simp only [List.length_append]
          omega
      | incorrectTransferSize =>
        simp only [sectorAttempts, hps, hrd]
        refine ⟨d1 ++ d2, ?_, ?_⟩
        · show s2.trace = s.trace ++ (d1 ++ d2)
          rw [he1x, hd1x]
          simp [List.append_assoc]
        · show s2.k = s.k + (d1 ++ d2).length
          rw [he2x, hd2x]
          simp only [List.length_append]
          omega
      | timeOutError =>
        simp only [sectorAttempts, hps, hrd]
        refine ⟨d1 ++ d2, ?_, ?_⟩
        · show s2.trace = s.trace ++ (d1 ++ d2)
          rw [he1x, hd1x]
          simp [List.append_assoc]
        · show s2.k = s.k + (d1 ++ d2).length
          rw [he2x, hd2x]
          simp only [List.length_append]
          omega
      | corruptedUpload =>
        simp only [sectorAttempts, hps, hrd]
        refine ⟨d1 ++ d2, ?_, ?_⟩
        · show s2.trace = s.trace ++ (d1 ++ d2)
          rw [he1x, hd1x]
          simp [List.append_assoc]
        · show s2.k = s.k + (d1 ++ d2).length
          rw [he2x, hd2x]
          simp only [List.length_append]
          omega
    | devError c =>
      simp only [sectorAttempts, hps]
      exact ⟨d1, hd1x, hd2x⟩
    | incorrectTransferSize =>
      simp only [sectorAttempts, hps]
      exact ⟨d1, hd1x, hd2x⟩
    | timeOutError =>
      simp only [sectorAttempts, hps]
      exact ⟨d1, hd1x, hd2x⟩
    | corruptedUpload =>
      simp only [sectorAttempts, hps]
      exact ⟨d1, hd1x, hd2x⟩

/-- If the per-sector retry loop returns the timeout status, its bus
activity ends with the exhausted poll budget of the failed busy-wait —
whether that wait belongs to a page program of any attempt or to the erase
of a verification retry. -/
theorem sectorAttempts_timeoutProp (g : Geom) (env : Env) (i : Nat)
    (sb : List Nat) (bt : Nat) : ∀ rem s,
      (sectorAttempts g env i sb bt rem s).1 = .timeOutError →
      ∃ pre, (sectorAttempts g env i sb bt rem s).2.trace
          = s.trace ++ pre ++ pollEvsN g.maxWaitTimeMs ∧
        (sectorAttempts g env i sb bt rem s).2.k
          = s.k + pre.length + 2 * g.maxWaitTimeMs := by
  intro rem
  induction rem with
  | zero =>
    intro s ht
    simp [sectorAttempts] at ht
  | succ rem ih =>
    intro s ht
    obtain ⟨⟨st, s1⟩, hps⟩ : ∃ r, SectorProgramFlashM g env i sb s = r :=
      ⟨_, rfl⟩
    cases st with
    | ok =>
      obtain ⟨d1, hd1, hd2⟩ := sectorProgram_extends g env i sb s
      rw [hps] at hd1 hd2
      have hd1x : s1.trace = s.trace ++ d1 := hd1
      have hd2x : s1.k = s.k + d1.length := hd2
      obtain ⟨⟨st2, rb, s2⟩, hrd⟩ : ∃ r, ReadSectorFlashM g env i s1 = r :=
        ⟨_, rfl⟩
      cases st2 with
      | ok =>
        obtain ⟨d2, he1, he2⟩ := readSector_extends g env i s1
        rw [hrd] at he1 he2
        have he1x : s2.trace = s1.trace ++ d2 := he1
        have he2x : s2.k = s1.k + d2.length := he2
        by_cases hcm : countMismatch rb sb bt > 0
        · obtain ⟨⟨st3, s3⟩, her⟩ : ∃ r, EraseSectorM g env i s2 = r :=
            ⟨_, rfl⟩
          cases st3 with
          | ok =>
            obtain ⟨d3, hg1, hg2⟩ := eraseSector_extends g env i s2
            rw [her] at hg1 hg2
            have hg1x : s3.trace = s2.trace ++ d3 := hg1
            have hg2x : s3.k = s2.k + d3.length := hg2
            by_cases hrem : rem = 0
            · subst hrem
              simp only [sectorAttempts, hps, hrd, her] at ht
              rw [if_pos hcm] at ht
              simp at ht
            · simp only [sectorAttempts, hps, hrd, her] at ht ⊢
              rw [if_pos hcm, if_neg hrem] at ht ⊢
              obtain ⟨pre, hp1, hp2⟩ := ih s3 ht
              refine ⟨d1 ++ d2 ++ d3 ++ pre, ?_, ?_⟩
              · rw [hp1, hg1x, he1x, hd1x]
                simp [List.append_assoc]
              · rw [hp2, hg2x, he2x, hd2x]
                simp only [List.length_append]
                omega
          | timeOutError =>
            have hert := eraseSector_timeoutProp g env i s2 (by rw [her])
            rw [her] at hert
            obtain ⟨preE, hq1, hq2⟩ := hert
            have hq1x : s3.trace
                = s2.trace ++ preE ++ pollEvsN g.maxWaitTimeMs := hq1
            have hq2x : s3.k
                = s2.k + preE.length + 2 * g.maxWaitTimeMs := hq2
            simp only [sectorAttempts, hps, hrd, her]
            rw [if_pos hcm]
            refine ⟨d1 ++ d2 ++ preE, ?_, ?_⟩
            · show s3.trace
                = s.trace ++ (d1 ++ d2 ++ preE) ++ pollEvsN g.maxWaitTimeMs
              rw [hq1x, he1x, hd1x]
              simp [List.append_assoc]
            · show s3.k
                = s.k + (d1 ++ d2 ++ preE).length + 2 * g.maxWaitTimeMs
              rw [hq2x, he2x, hd2x]
              simp only [List.length_append]
              omega
          | devError c =>
            simp only [sectorAttempts, hps, hrd, her] at ht
            rw [if_pos hcm] at ht
            simp at ht
          | incorrectTransferSize =>
            simp only [sectorAttempts, hps, hrd, her] at ht
            rw [if_pos hcm] at ht
            simp at ht
          | corruptedUpload =>
            simp only [sectorAttempts, hps, hrd, her] at ht
            rw [if_pos hcm] at ht
            simp at ht
        · by_cases hrem : rem = 0
          · subst hrem
            simp only [sectorAttempts, hps, hrd] at ht
            rw [if_neg hcm] at ht
            simp at ht
          · simp only [sectorAttempts, hps, hrd] at ht
            rw [if_neg hcm, if_neg hrem] at ht
            simp at ht
      | timeOutError =>
        exact absurd
          (show (ReadSectorFlashM g env i s1).1 = .timeOutError from
            by rw [hrd])
          (readSector_no_timeout g env i s1)
      | devError c =>
        simp [sectorAttempts, hps, hrd] at ht
      | incorrectTransferSize =>
        simp [sectorAttempts, hps, hrd] at ht
      | corruptedUpload =>
        simp [sectorAttempts, hps, hrd] at ht
    | timeOutError =>
      have hspt := sectorProgram_timeoutProp g env i sb s (by rw [hps])
      rw [hps] at hspt
      simp only [sectorAttempts, hps]
      exact hspt
    | devError c =>
      simp [sectorAttempts, hps] at ht
    | incorrectTransferSize =>
      simp [sectorAttempts, hps] at ht
    | corruptedUpload =>
      simp [sectorAttempts, hps] at ht

/-- If the sector loop of `ProgramFlash` returns the timeout status, its
bus activity ends with the exhausted poll budget of the failed busy-wait,
in whichever sector and attempt it occurred. -/
theorem sectorsLoop_timeoutProp (g : Geom) (env : Env) (fb : List Nat)
    (sc : Nat) : ∀ rem bp s,
      (sectorsLoop g env fb sc rem bp s).1 = .timeOutError →
      ∃ pre, (sectorsLoop g env fb sc rem bp s).2.trace
          = s.trace ++ pre ++ pollEvsN g.maxWaitTimeMs ∧
        (sectorsLoop g env fb sc rem bp s).2.k
          = s.k + pre.length + 2 * g.maxWaitTimeMs := by
  intro rem
  induction rem with
  | zero =>
    intro bp s ht
    simp [sectorsLoop] at ht
  | succ rem ih =>
    intro bp s ht
    obtain ⟨⟨st, s1⟩, hsa⟩ : ∃ r, sectorAttempts g env (sc - (rem + 1))
        (sectorWindow g fb sc bp (sc - (rem + 1)))
        (bytesToTransmitModel g fb sc (sc - (rem + 1)))
        g.maxSectorProgramAttempts s = r := ⟨_, rfl⟩
    cases st with
    | ok =>
      obtain ⟨d1, hd1, hd2⟩ := sectorAttempts_extends g env (sc - (rem + 1))
        (sectorWindow g fb sc bp (sc - (rem + 1)))
        (bytesToTransmitModel g fb sc (sc - (rem + 1)))
        g.maxSectorProgramAttempts s
      rw [hsa] at hd1 hd2
      have hd1x : s1.trace = s.trace ++ d1 := hd1
      have hd2x : s1.k = s.k + d1.length := hd2
      simp only [sectorsLoop, hsa] at ht ⊢
      obtain ⟨pre, hp1, hp2⟩ := ih (bp + g.sectorSize) s1 ht
      refine ⟨d1 ++ pre, ?_, ?_⟩
      · rw [hp1, hd1x]
        simp [List.append_assoc]
      · rw [hp2, hd2x, List.length_append]
        omega
    | timeOutError =>
      have hsat := sectorAttempts_timeoutProp g env (sc - (rem + 1))
        (sectorWindow g fb sc bp (sc - (rem + 1)))
        (bytesToTransmitModel g fb sc (sc - (rem + 1)))
        g.maxSectorProgramAttempts s (by rw [hsa])
      rw [hsa] at hsat
      simp only [sectorsLoop, hsa]
      exact hsat
    | devError c =>
      simp [sectorsLoop, hsa] at ht
    | incorrectTransferSize =>
      simp [sectorsLoop, hsa] at ht
    | corruptedUpload =>
      simp [sectorsLoop, hsa] at ht

/-- If `ProgramFlash` returns the timeout status, its bus activity ends
with the exhausted poll budget of the failed busy-wait. -/
theorem programFlash_timeoutProp (g : Geom) (env : Env) (fb : List Nat)
    (s : St) (ht : (ProgramFlashM g env fb s).1 = .timeOutError) :
    ∃ pre, (ProgramFlashM g env fb s).2.trace
        = s.trace ++ pre ++ pollEvsN g.maxWaitTimeMs ∧
      (ProgramFlashM g env fb s).2.k
        = s.k + pre.length + 2 * g.maxWaitTimeMs := by
  have hPF : ProgramFlashM g env fb s
      = sectorsLoop g env fb (sectorCountModel g.sectorSize fb.length)
          (sectorCountModel g.sectorSize fb.length) 0 s := rfl
  rw [hPF] at ht ⊢
  exact sectorsLoop_timeoutProp g env fb
    (sectorCountModel g.sectorSize fb.length)
    (sectorCountModel g.sectorSize fb.length) 0 s ht

/-- The read loop of `ValidateFlash` contains no busy-wait and never
returns the timeout status. -/
theorem validateChunks_no_timeout (g : Geom) (env : Env) (len n : Nat) :
    ∀ rem pointer acc s,
      (validateChunks g env len n rem pointer acc s).1 ≠ .timeOutError := by
  intro rem
  induction rem with
  | zero =>
    intro pointer acc s ht
    simp [validateChunks] at ht
  | succ rem ih =>
    intro pointer acc s ht
    cases hf0 : env.fault s.k with
    | some e =>
      have hx : (validateChunks g env len n (rem + 1) pointer acc s).1
          = errOf (some e) := by
        cases e <;> simp [validateChunks, writeSPIm, hf0, errOf]
      exact errOf_ne_timeout (some e) (hx.symm.trans ht)
    | none =>
      cases hf1 : env.fault (s.k + 1) with
      | some e =>
        have hx : (validateChunks g env len n (rem + 1) pointer acc s).1
            = errOf (some e) := by
          cases e <;>
            simp [validateChunks, writeSPIm, readFlashM, hf0, hf1, errOf]
        exact errOf_ne_timeout (some e) (hx.symm.trans ht)
      | none =>
        simp only [validateChunks, writeSPIm, readFlashM, hf0, hf1,
          errOf] at ht
        exact ih _ _ _ ht

/-- `ValidateFlash` never returns the timeout status, so it trivially
returns a timeout immediately. -/
theorem validateFlash_timeoutProp (g : Geom) (env : Env) (fb : List Nat)
    (s : St) (ht : (ValidateFlashM g env fb s).1 = .timeOutError) :
    ∃ pre, (ValidateFlashM g env fb s).2.trace
        = s.trace ++ pre ++ pollEvsN g.maxWaitTimeMs ∧
      (ValidateFlashM g env fb s).2.k
        = s.k + pre.length + 2 * g.maxWaitTimeMs := by
  exfalso
  obtain ⟨⟨st, rb, s1⟩, hvc⟩ : ∃ r, validateChunks g env fb.length
      (chunkCountModel g fb.length) (chunkCountModel g fb.length) 0 [] s = r :=
    ⟨_, rfl⟩
  cases st with
  | ok =>
    simp only [ValidateFlashM, hvc] at ht
    by_cases hcm : countMismatch rb fb fb.length > 0
    · rw [if_pos hcm] at ht
      simp at ht
    · rw [if_neg hcm] at ht
      simp at ht
  | timeOutError =>
    exact absurd
      (show (validateChunks g env fb.length (chunkCountModel g fb.length)
          (chunkCountModel g fb.length) 0 [] s).1 = .timeOutError from
        by rw [hvc])
      (validateChunks_no_timeout g env fb.length (chunkCountModel g fb.length)
        (chunkCountModel g fb.length) 0 [] s)
  | devError c =>
    simp [ValidateFlashM, hvc] at ht
  | incorrectTransferSize =>
    simp [ValidateFlashM, hvc] at ht
  | corruptedUpload =>
    simp [ValidateFlashM, hvc] at ht

/-- C9: the first transport error or timeout encountered by any operation
is returned to the caller immediately — no further SPI transaction is
issued after it and the failed transaction is never retried.  Transport
part: every operation of the source — the ready poll, a page program, a
sector program, the whole-image program and the validate pass — satisfies
`AbortsAtFault`: for the first injected fault at call `k0`, the run either
finishes without ever issuing call `k0`, or issues the faulting call as
its very last SPI call (final call counter `k0 + 1`) and returns exactly
that call's error status.  Timeout part: every operation satisfies
`TimeoutAborts` for every environment: whenever the operation's result is
`FT4222_TIME_OUT_ERROR`, its entire bus activity is a prefix followed by
exactly the exhausted poll budget of the failed busy-wait, and the call
counter stops at the end of that budget — wherever the timeout occurs
(the first page, a later page, a later sector, or the erase busy-wait of a
verification retry), nothing is issued after it and the timed-out wait is
never retried. -/
theorem first_error_aborts_immediately (g : Geom) (env : Env) :
    (AbortsAtFault env (WaitForFlashReadyM g env) ∧
     (∀ p wb, AbortsAtFault env (PageProgramFlashM g env p wb)) ∧
     (∀ i sb, AbortsAtFault env (SectorProgramFlashM g env i sb)) ∧
     (∀ fb, AbortsAtFault env (ProgramFlashM g env fb)) ∧
     (∀ fb, AbortsAtFault env (ValidateFlashM g env fb))) ∧
    (TimeoutAborts g env (WaitForFlashReadyM g env) ∧
     (∀ p wb, TimeoutAborts g env (PageProgramFlashM g env p wb)) ∧
     (∀ i sb, TimeoutAborts g env (SectorProgramFlashM g env i sb)) ∧
     (∀ fb, TimeoutAborts g env (ProgramFlashM g env fb)) ∧
     (∀ fb, TimeoutAborts g env (ValidateFlashM g env fb))) := by
  refine ⟨⟨?_, ?_, ?_, ?_, ?_⟩, ?_, ?_, ?_, ?_, ?_⟩
  · exact fun k0 e s hf hpre hk =>
      waitLoop_abort env k0 e hf g.maxWaitTimeMs s hpre hk
  · exact fun p wb k0 e s hf hpre hk =>
      pageProgram_abort g env k0 e hf p wb s hpre hk
  · exact fun i sb k0 e s hf hpre hk =>
      sectorProgram_abort g env k0 e hf i sb s hpre hk
  · exact fun fb k0 e s hf hpre hk =>
      programFlash_abort g env k0 e hf fb s hpre hk
  · exact fun fb k0 e s hf hpre hk =>
      validateFlash_abort g env k0 e hf fb s hpre hk
  · exact fun s ht => by
      rw [WaitForFlashReadyM] at ht ⊢
      obtain ⟨h1, h2⟩ := waitLoop_timeoutProp env g.maxWaitTimeMs s ht
      refine ⟨[], ?_, ?_⟩
      · rw [h1]
        simp
      · rw [h2]
        simp
  · exact fun p wb s ht => pageProgram_timeoutProp g env p wb s ht
  · exact fun i sb s ht => sectorProgram_timeoutProp g env i sb s ht
  · exact fun fb s ht => programFlash_timeoutProp g env fb s ht
  · exact fun fb s ht => validateFlash_timeoutProp g env fb s ht

set_option maxHeartbeats 1000000 in
/-- Witness for C9.  Transport part: on `envFault0` (driver error 7 on the
session's very first SPI call) a page program returns exactly that driver
error having issued exactly one SPI call.  Timeout part: on `envLateBusy`
(ready until the first page's poll, busy afterwards) a two-page sector
program times out at the second page's busy-wait — a wait later than the
session's first — and its bus activity ends right at that wait's exhausted
poll budget. -/
theorem first_error_aborts_immediately_witness :
    ((PageProgramFlashM gFour envFault0 0 [1, 2] st0).1 = .devError 7 ∧
     (PageProgramFlashM gFour envFault0 0 [1, 2] st0).2.k = 1) ∧
    ∃ pre, (SectorProgramFlashM g48 envLateBusy 0 [1, 2, 3, 4, 5, 6, 7, 8]
        st0).2.trace = st0.trace ++ pre ++ pollEvsN g48.maxWaitTimeMs ∧
      (SectorProgramFlashM g48 envLateBusy 0 [1, 2, 3, 4, 5, 6, 7, 8]
        st0).2.k = st0.k + pre.length + 2 * g48.maxWaitTimeMs := by
  constructor
  · have h := (first_error_aborts_immediately gFour envFault0).1.2.1 0 [1, 2]
      0 (.dev 7) st0 (by decide)
      (fun j _ hj2 => absurd hj2 (Nat.not_lt_zero j)) (by decide)
    rcases h with ⟨_, h2⟩ | ⟨hr1, hr2⟩
    · exfalso
      have hkk : (PageProgramFlashM gFour envFault0 0 [1, 2] st0).2.k = 1 := by
        decide
      have h2x : (PageProgramFlashM gFour envFault0 0 [1, 2] st0).2.k ≤ 0 := h2
      omega
    · exact ⟨hr1, hr2⟩
  · exact (first_error_aborts_immediately g48 envLateBusy).2.2.2.1 0
      [1, 2, 3, 4, 5, 6, 7, 8] st0 (by decide)

end IceBoard
